import Mathlib

/-!
Verification of the GNU-compatibility build pipeline of fcoreutils
(src/assembly/build_tool.py and src/assembly/yes/build.py) against its
natural-language specification.

The Python code is shallowly embedded: file contents are `List Char`
(Python `str`), captured process output and byte payloads are `List Nat`
(Python `bytes`, each element < 256), and all string operations
(split/strip/startswith/find/replace/lower/format) are re-implemented as
executable Lean functions that mirror the Python semantics on the ASCII
inputs the tool operates on.
-/

/-- Characters of a string literal, used to write embedded Python string
constants. -/
def chars (s : String) : List Char := s.data

/-- Python `s.startswith(p)` on sequences. -/
def listStartsWith {α : Type} [DecidableEq α] : List α → List α → Bool
  | _, [] => true
  | [], _ :: _ => false
  | c :: cs, p :: ps => c = p && listStartsWith cs ps

/-- Python `p in s` (substring containment) on sequences. -/
def containsSub {α : Type} [DecidableEq α] : List α → List α → Bool
  | [], pat => listStartsWith [] pat
  | c :: rest, pat =>
    if listStartsWith (c :: rest) pat then true else containsSub rest pat

/-- Python `s.find(p)`: index of the first occurrence, `none` for -1. -/
def findSub {α : Type} [DecidableEq α] : List α → List α → Option Nat
  | [], pat => if listStartsWith [] pat then some 0 else none
  | c :: rest, pat =>
    if listStartsWith (c :: rest) pat then some 0
    else (findSub rest pat).map (· + 1)

/-- Python `s.split(sep)` for a single-element separator (used with the
newline separator throughout the build tool). -/
def splitOnElem {α : Type} [DecidableEq α] (sep : α) : List α → List (List α)
  | [] => [[]]
  | c :: rest =>
    if c = sep then [] :: splitOnElem sep rest
    else match splitOnElem sep rest with
      | [] => [[c]]
      | l :: ls => (c :: l) :: ls

/-- Python `sep.join(parts)` for a single-element separator. -/
def joinWithElem {α : Type} (sep : α) : List (List α) → List α
  | [] => []
  | [l] => l
  | l :: rest => l ++ sep :: joinWithElem sep rest

/-- Python `content.split(chr(10))` specialised to text lines. -/
def splitLines (s : List Char) : List (List Char) := splitOnElem '\n' s

/-- Python newline `join` specialised to text lines. -/
def joinLines (ls : List (List Char)) : List Char := joinWithElem '\n' ls

/-- The whitespace set of Python `str.strip`. -/
def isPyWs (c : Char) : Bool :=
  c = ' ' || c = '\t' || c = '\n' || c = '\x0b' || c = '\x0c' || c = '\r'

/-- Python `s.strip()`. -/
def strip (s : List Char) : List Char :=
  ((s.dropWhile isPyWs).reverse.dropWhile isPyWs).reverse

/-- ASCII lower-casing of one character, the effect of Python `str.lower`
on the ASCII identifiers the tool classifies. -/
def pyLower (c : Char) : Char :=
  match c with
  | 'A' => 'a' | 'B' => 'b' | 'C' => 'c' | 'D' => 'd' | 'E' => 'e'
  | 'F' => 'f' | 'G' => 'g' | 'H' => 'h' | 'I' => 'i' | 'J' => 'j'
  | 'K' => 'k' | 'L' => 'l' | 'M' => 'm' | 'N' => 'n' | 'O' => 'o'
  | 'P' => 'p' | 'Q' => 'q' | 'R' => 'r' | 'S' => 's' | 'T' => 't'
  | 'U' => 'u' | 'V' => 'v' | 'W' => 'w' | 'X' => 'x' | 'Y' => 'y'
  | 'Z' => 'z' | c => c

/-- Python `s.lower()` on the ASCII text this tool handles. -/
def lowerStr (s : List Char) : List Char := s.map pyLower

/-- Python format `{:<24}`-style left justification: pad with spaces on the
right up to the given width. -/
def padRight (s : List Char) (w : Nat) : List Char :=
  s ++ List.replicate (w - s.length) ' '

/-- Python `s.replace(pat, rep)`, fuel-indexed helper: the fuel is an
upper bound on the number of scanning steps (each step consumes at least
one element of `s`), making the recursion structural.  The zero-fuel
fallback is unreachable when the fuel is `s.length`. -/
def replaceSubFuel {α : Type} [DecidableEq α] : Nat → List α → List α → List α → List α
  | _, s, [], rep => rep ++ s.foldr (fun c acc => c :: rep ++ acc) []
  | 0, s, _ :: _, _ => s
  | _ + 1, [], _ :: _, _ => []
  | fuel + 1, c :: s', p :: ps, rep =>
    if listStartsWith (c :: s') (p :: ps) then
      rep ++ replaceSubFuel fuel (s'.drop ps.length) (p :: ps) rep
    else
      c :: replaceSubFuel fuel s' (p :: ps) rep

/-- Python `s.replace(pat, rep)` (all non-overlapping occurrences, left to
right; an empty pattern inserts the replacement at every position). -/
def replaceSub {α : Type} [DecidableEq α] (s pat rep : List α) : List α :=
  replaceSubFuel s.length s pat rep

/-- A regex word character, Python `\w` on the ASCII label names used in
the assembly sources. -/
def isWordChar (c : Char) : Bool := c.isAlphanum || c = '_'

/-- Python `re.match(r'^\w+:', sl)`: the line begins with one or more word
characters immediately followed by a colon. -/
def matchesLabelStart (sl : List Char) : Bool :=
  let w := sl.takeWhile isWordChar
  !w.isEmpty && listStartsWith (sl.drop w.length) [':']

/-- A whole line of the form `name:` for a nonempty word-character `name`,
the GAS label-definition shape `^(\w+):$`. -/
def isGasLabelDef (sl : List Char) : Bool :=
  let w := sl.takeWhile isWordChar
  !w.isEmpty && sl = w ++ [':']

/-- Hex digit characters used by Python format `0x{:02x}`. -/
def hexDigitChar (n : Nat) : Char := (chars "0123456789abcdef").getD n '0'

/-- Python `"0x{:02x}".format(b)` for one byte value (payloads are Python
`bytes`, so every element is below 256 and prints as exactly two digits). -/
def hexByte (b : Nat) : List Char := ['0', 'x', hexDigitChar (b / 16), hexDigitChar (b % 16)]

/-- Python `", ".join("0x{:02x}".format(b) for b in chunk)`. -/
def opsOf : List Nat → List Char
  | [] => []
  | [b] => hexByte b
  | b :: rest => hexByte b ++ chars ", " ++ opsOf rest

/-- Structural helper for the 16-byte chunking: `cur` is the reversed
bytes of the chunk being assembled. -/
def chunksAux : List Nat → List Nat → List (List Nat)
  | [], cur => if cur = [] then [] else [cur.reverse]
  | b :: rest, cur =>
    if (b :: cur).length = 16 then (b :: cur).reverse :: chunksAux rest []
    else chunksAux rest (b :: cur)

/-- The 16-byte chunking `range(0, len(data), 16)` used by every
byte-emission loop of the build tool: successive 16-byte slices of the
payload (see the step characterisation proved below). -/
def chunks16 (l : List Nat) : List (List Nat) := chunksAux l []

/-- The condition under which `replace_label_content` treats a line as the
start of the target label: NASM accepts `label:` or `label :` as a line
prefix, GAS requires the stripped line to be exactly `label:`. -/
def isLabelLine (isGas : Bool) (label sl : List Char) : Bool :=
  if isGas then sl = label ++ [':']
  else listStartsWith sl (label ++ [':']) || listStartsWith sl (label ++ chars " :")

/-- The skip check of the inner loop of `replace_label_content`: old
byte-emission lines, blank lines, comment lines and deeply indented lines
are consumed as replaceable old content. -/
def consumable (sl : List Char) : Bool :=
  let sll := lowerStr sl
  listStartsWith sll (chars "db ") || containsSub sll (chars "db 0x") ||
  listStartsWith sll (chars ".byte") || listStartsWith sll (chars ".ascii") ||
  sl.isEmpty || listStartsWith sl (chars ";") || listStartsWith sl (chars "//") ||
  listStartsWith sl (chars "                ")

/-- The inner while loop of `replace_label_content`: starting just after
the target label line, consume old content until one of the terminators,
returning the lines it emits and the lines left unconsumed. -/
def scanOld (label : List Char) (isGas : Bool) : List (List Char) → List (List Char) × List (List Char)
  | [] => ([], [])
  | l :: rest =>
    let sl := strip l
    if isGas then
      if listStartsWith sl (chars ".set " ++ label ++ chars "_len") then
        ([chars "    .set " ++ label ++ chars "_len, . - " ++ label], rest)
      else if listStartsWith sl (chars ".equ " ++ label ++ chars "_len") then
        ([chars ".equ " ++ label ++ chars "_len, . - " ++ label], rest)
      else if sl = label ++ chars "_end:" then
        match rest with
        | [] => ([label ++ chars "_end:"], [])
        | l2 :: rest2 =>
          if containsSub (strip l2) (chars "_len") then
            ([label ++ chars "_end:", l2], rest2)
          else ([label ++ chars "_end:"], l2 :: rest2)
      else if consumable sl then scanOld label isGas rest
      else ([], l :: rest)
    else
      if listStartsWith sl (label ++ chars "_len") then
        ([label ++ chars "_len equ $ - " ++ label], rest)
      else if listStartsWith sl (label ++ chars "_end") then
        match rest with
        | [] => ([], [])
        | l2 :: rest2 =>
          if containsSub (strip l2) (chars "_len") then
            ([label ++ chars "_len equ $ - " ++ label], rest2)
          else ([], l2 :: rest2)
      else if matchesLabelStart sl && !containsSub (lowerStr sl) (chars "db") then
        ([], l :: rest)
      else if consumable sl then scanOld label isGas rest
      else ([], l :: rest)

/-- The replacement block emitted for the new payload by
`replace_label_content`: for GAS a bare label line followed by indented
`.byte` lines, for NASM the label fused with the first `db` line and
24-space-indented continuation lines.  An empty payload emits only the
bare label line for GAS and nothing at all for NASM. -/
def emitBlock (isGas : Bool) (label : List Char) (newBytes : List Nat) : List (List Char) :=
  if isGas then
    (label ++ [':']) :: (chunks16 newBytes).map (fun c => chars "    .byte " ++ opsOf c)
  else
    match chunks16 newBytes with
    | [] => []
    | c0 :: cs =>
      (padRight (label ++ [':']) 24 ++ chars "db " ++ opsOf c0) ::
        cs.map (fun c => chars "                        db " ++ opsOf c)

/-- The outer while loop of `replace_label_content` over the split lines:
copy lines until the first target-label line, replace that block, then
copy the remainder verbatim (the `replaced` flag is never reset). -/
def processLines (label : List Char) (newBytes : List Nat) (isGas : Bool) : List (List Char) → List (List Char)
  | [] => []
  | l :: rest =>
    if isLabelLine isGas label (strip l) then
      let s := scanOld label isGas rest
      emitBlock isGas label newBytes ++ s.1 ++ s.2
    else l :: processLines label newBytes isGas rest

/-- `replace_label_content(content, label, new_bytes, is_gas)` of
src/assembly/build_tool.py. -/
def replaceLabelContent (content label : List Char) (newBytes : List Nat) (isGas : Bool) : List Char :=
  joinLines (processLines label newBytes isGas (splitLines content))

/-- `bytes_to_nasm_db(data, label)` of src/assembly/build_tool.py.  The
empty-data branch renders the format string with the arguments
`(label + ":", "", label)`: the second replacement field receives the
empty string, so the length symbol it emits is the bare `_len`. -/
def bytesToNasmDb (data : List Nat) (label : List Char) : List Char :=
  if data.isEmpty then
    padRight (label ++ [':']) 24 ++ chars "db 0\n" ++ chars "_len equ 0"
  else
    joinLines ((chunks16 data).enum.map (fun p =>
      if p.1 = 0 then padRight (label ++ [':']) 24 ++ chars "db " ++ opsOf p.2
      else chars "                        db " ++ opsOf p.2)
      ++ [label ++ chars "_len equ $ - " ++ label])

/-- `bytes_to_gas_directives(data, label)` of src/assembly/build_tool.py. -/
def bytesToGasDirectives (data : List Nat) (label : List Char) : List Char :=
  if data.isEmpty then
    label ++ chars ":\n    .byte 0\n    .set " ++ label ++ chars "_len, 0"
  else
    joinLines ((label ++ [':']) ::
      (chunks16 data).map (fun c => chars "    .byte " ++ opsOf c)
      ++ [chars "    .set " ++ label ++ chars "_len, . - " ++ label])

/-- The NASM data-section markers of build_tool.py. -/
def markerNasm : List Char × List Char :=
  (chars "; @@DATA_START@@", chars "; @@DATA_END@@")

/-- The GAS data-section markers of build_tool.py. -/
def markerGas : List Char × List Char :=
  (chars "// @@DATA_START@@", chars "// @@DATA_END@@")

/-- Python `content.index(chr(10), i)`: position of the first newline at or
after index `i`, `none` where Python raises ValueError. -/
def newlineFrom (content : List Char) (i : Nat) : Option Nat :=
  ((content.drop i).findIdx? (· = '\n')).map (· + i)

/-- The label shape recognised inside the marker-delimited section:
`^(\w+):$` for GAS (whole line), `^(\w+):` for NASM (line prefix).
Returns the captured name. -/
def labelOfLine (isGas : Bool) (line : List Char) : Option (List Char) :=
  let w := line.takeWhile isWordChar
  if w.isEmpty then none
  else if isGas then (if line = w ++ [':'] then some w else none)
  else (if listStartsWith (line.drop w.length) [':'] then some w else none)

/-- All label names found in section text, in order of appearance. -/
def extractLabels (isGas : Bool) (section_ : List Char) : List (List Char) :=
  (splitLines section_).filterMap (labelOfLine isGas)

/-- The help-classification test of `parse_data_section`: lowercased name
contains `help` and none of the exclusion substrings, `try` included. -/
def helpCond (nl : List Char) : Bool :=
  containsSub nl (chars "help") && !containsSub nl (chars "flag") &&
  !containsSub nl (chars "opt") && !containsSub nl (chars "dash") &&
  !containsSub nl (chars "try") &&
  !containsSub nl (chars "_len") && !containsSub nl (chars "_end")

/-- The version-classification test of `parse_data_section`: lowercased
name contains `version` and none of its exclusion substrings — this set
omits `try`, unlike the help test. -/
def versionCond (nl : List Char) : Bool :=
  containsSub nl (chars "version") && !containsSub nl (chars "flag") &&
  !containsSub nl (chars "opt") && !containsSub nl (chars "dash") &&
  !containsSub nl (chars "_len") && !containsSub nl (chars "_end")

/-- The classification loop of `parse_data_section`: first match per class
wins, and a name passing the help test never reaches the version test
(the version branch is an `elif`). -/
def classifyGo (h v : Option (List Char)) : List (List Char) → Option (List Char) × Option (List Char)
  | [] => (h, v)
  | n :: ns =>
    let nl := lowerStr n
    if helpCond nl then
      classifyGo (if h.isNone then some n else h) v ns
    else if versionCond nl then
      classifyGo h (if v.isNone then some n else v) ns
    else
      classifyGo h v ns

/-- Classification of a label list into (help label, version label). -/
def classifyLabels (names : List (List Char)) : Option (List Char) × Option (List Char) :=
  classifyGo none none names

/-- Result of `parse_data_section`: the Python function returns the empty
list when a marker is missing, raises ValueError when no newline follows
the start marker, and otherwise returns the two classified labels. -/
inductive ParseResult where
  | noMarkers : ParseResult
  | crash : ParseResult
  | labels (h v : Option (List Char)) : ParseResult
deriving DecidableEq

/-- The marker-delimited section text of `parse_data_section`:
`content[content.index(chr(10), start_idx) + 1 : end_idx]`. -/
def sectionSlice (content : List Char) (isGas : Bool) : ParseResult ⊕ List Char :=
  let m := if isGas then markerGas else markerNasm
  match findSub content m.1, findSub content m.2 with
  | some si, some ei =>
    match newlineFrom content si with
    | none => Sum.inl ParseResult.crash
    | some nl => Sum.inr ((content.drop (nl + 1)).take (ei - (nl + 1)))
  | _, _ => Sum.inl ParseResult.noMarkers

/-- `parse_data_section(content, is_gas)` of src/assembly/build_tool.py. -/
def parseDataSection (content : List Char) (isGas : Bool) : ParseResult :=
  match sectionSlice content isGas with
  | Sum.inl r => r
  | Sum.inr sec =>
    let p := classifyLabels (extractLabels isGas sec)
    ParseResult.labels p.1 p.2

/-- Help classification as the specification words it: lowercased name
contains `help` and none of the fixed exclusion substrings (flag/option
identifier `flag`, `opt`, `dash`, cross-reference phrase `try`, suffixes
`_len`, `_end`).  Written from the spec text, for comparison with the
code's `helpCond`. -/
def specHelpPred (nl : List Char) : Bool :=
  containsSub nl (chars "help") && !containsSub nl (chars "flag") &&
  !containsSub nl (chars "opt") && !containsSub nl (chars "dash") &&
  !containsSub nl (chars "try") &&
  !containsSub nl (chars "_len") && !containsSub nl (chars "_end")

/-- Version classification as claim C7 words it — symmetric to the help
test, with the same exclusion set including the cross-reference phrase
`try`.  Written from the spec text, for comparison with the code. -/
def specSymmetricVersionPred (nl : List Char) : Bool :=
  containsSub nl (chars "version") && !containsSub nl (chars "flag") &&
  !containsSub nl (chars "opt") && !containsSub nl (chars "dash") &&
  !containsSub nl (chars "try") &&
  !containsSub nl (chars "_len") && !containsSub nl (chars "_end")

/-- Version classification as the code actually performs it (amended claim
C7): the exclusion set omits `try`. -/
def specVersionPredNoTry (nl : List Char) : Bool :=
  containsSub nl (chars "version") && !containsSub nl (chars "flag") &&
  !containsSub nl (chars "opt") && !containsSub nl (chars "dash") &&
  !containsSub nl (chars "_len") && !containsSub nl (chars "_end")

/-- Modelled from the spec: the byte contribution of one source line under
the NASM toolchain.  A line whose lowercased text contains `db` assembles
one byte per comma-separated operand (the emitted operands are single-byte
hex constants); any other line assembles no data bytes.  This models the
external assembler, which is not part of the repository. -/
def dbCount (sl : List Char) : Nat :=
  if containsSub (lowerStr sl) (chars "db") then sl.count ',' + 1 else 0

/-- Modelled from the spec: NASM evaluation of `label_len equ $ - label`,
counting the bytes assembled between the label definition line and the
first following length directive.  Helper: count from the line after the
label until a line starting with `label_len`. -/
def nasmCountFrom (label : List Char) : List (List Char) → Option Nat
  | [] => none
  | l :: rest =>
    let sl := strip l
    if listStartsWith sl (label ++ chars "_len") then some 0
    else (nasmCountFrom label rest).map (· + dbCount sl)

/-- Modelled from the spec: NASM evaluation of the length expression of a
labelled block.  `none` when the label or its length directive does not
occur, in which case the real assembler rejects the expression. -/
def nasmEvalLen (label : List Char) : List (List Char) → Option Nat
  | [] => none
  | l :: rest =>
    let sl := strip l
    if listStartsWith sl (label ++ [':']) then
      (nasmCountFrom label rest).map (· + dbCount sl)
    else nasmEvalLen label rest

/-- Modelled from the spec: the byte contribution of one source line under
the GNU assembler, for the `.byte` lines this tool emits. -/
def byteCount (sl : List Char) : Nat :=
  if listStartsWith sl (chars ".byte") then sl.count ',' + 1 else 0

/-- Modelled from the spec: a GAS length directive for the label,
`.set label_len, …` or `.equ label_len, …`. -/
def gasLenDirective (label sl : List Char) : Bool :=
  listStartsWith sl (chars ".set " ++ label ++ chars "_len") ||
  listStartsWith sl (chars ".equ " ++ label ++ chars "_len")

/-- Modelled from the spec: count `.byte` data from the line after the GAS
label until its length directive. -/
def gasCountFrom (label : List Char) : List (List Char) → Option Nat
  | [] => none
  | l :: rest =>
    let sl := strip l
    if gasLenDirective label sl then some 0
    else (gasCountFrom label rest).map (· + byteCount sl)

/-- Modelled from the spec: GAS evaluation of `. - label` at the length
directive of a labelled block. -/
def gasEvalLen (label : List Char) : List (List Char) → Option Nat
  | [] => none
  | l :: rest =>
    if strip l = label ++ [':'] then gasCountFrom label rest
    else gasEvalLen label rest

/-- Dialect dispatch for the modelled length-expression evaluation. -/
def evalLenDialect (isGas : Bool) (label : List Char) (lines : List (List Char)) : Option Nat :=
  if isGas then gasEvalLen label lines else nasmEvalLen label lines

/-- The exact condition under which one line is consumed (with nothing
emitted) by the inner loop of `replace_label_content` and scanning
continues: no terminator matches and the skip check passes. -/
def consumedByScan (isGas : Bool) (label sl : List Char) : Bool :=
  if isGas then
    !listStartsWith sl (chars ".set " ++ label ++ chars "_len") &&
    !listStartsWith sl (chars ".equ " ++ label ++ chars "_len") &&
    !(sl = label ++ chars "_end:") &&
    consumable sl
  else
    !listStartsWith sl (label ++ chars "_len") &&
    !listStartsWith sl (label ++ chars "_end") &&
    !(matchesLabelStart sl && !containsSub (lowerStr sl) (chars "db")) &&
    consumable sl

/-- A direct length-directive terminator for the block and the line that
`replace_label_content` regenerates for it: NASM `label_len…`, GAS
`.set label_len…` or `.equ label_len…`. -/
def regenFor (isGas : Bool) (label sl : List Char) : Option (List Char) :=
  if isGas then
    if listStartsWith sl (chars ".set " ++ label ++ chars "_len") then
      some (chars "    .set " ++ label ++ chars "_len, . - " ++ label)
    else if listStartsWith sl (chars ".equ " ++ label ++ chars "_len") then
      some (chars ".equ " ++ label ++ chars "_len, . - " ++ label)
    else none
  else
    if listStartsWith sl (label ++ chars "_len") then
      some (label ++ chars "_len equ $ - " ++ label)
    else none

/-- An unrelated label-definition line in the amended sense of claim C1:
a label definition that carries no byte-emission directive on the same
line and whose name does not begin with the target label's length or end
symbols. -/
def unrelatedLabelStop (isGas : Bool) (label sl : List Char) : Bool :=
  if isGas then
    isGasLabelDef sl && !(sl = label ++ chars "_end:")
  else
    matchesLabelStart sl && !containsSub (lowerStr sl) (chars "db") &&
    !listStartsWith sl (label ++ chars "_len") &&
    !listStartsWith sl (label ++ chars "_end")

/-- The sentinel end-label line of a block, per dialect: NASM accepts any
line starting with `label_end`, GAS requires exactly `label_end:`. -/
def endLabelForm (isGas : Bool) (label sl : List Char) : Bool :=
  if isGas then sl = label ++ chars "_end:"
  else listStartsWith sl (label ++ chars "_end")

/-- What `replace_label_content` emits for an end-label line followed by a
length line: GAS re-emits the end label and copies the old length line
verbatim; NASM drops the end label and emits only a regenerated length
directive. -/
def endEmit (isGas : Bool) (label oldLenLine : List Char) : List (List Char) :=
  if isGas then [label ++ chars "_end:", oldLenLine]
  else [label ++ chars "_len equ $ - " ++ label]

/-- Python `s.encode()` on the ASCII command names and paths the tool
manipulates: one byte per character. -/
def encode (s : List Char) : List Nat := s.map Char.toNat

/-- Decoding of captured bytes for printing (`decode(errors="replace")`),
modelled as the inverse map on the ASCII diagnostics the tools emit. -/
def decodeBytes (b : List Nat) : List Char := b.map Char.ofNat

/-- Outcome of one time-bounded external invocation as observed through
`capture`: normal completion, missing executable (FileNotFoundError), or
timeout (subprocess.TimeoutExpired). -/
inductive ProcOutcome where
  | completed (out err : List Nat) (rc : Nat) : ProcOutcome
  | notFound : ProcOutcome
  | timedOut : ProcOutcome
deriving DecidableEq

/-- Oracle for the probe subprocesses: what the operating system does for
a given argv. -/
def ProcEnv : Type := List (List Char) → ProcOutcome

/-- `capture(args)` of src/assembly/build_tool.py: a missing binary yields
a synthetic `<argv0>: not found` stderr with status 127, a timeout yields
`<argv0>: timed out` with status 124. -/
def capture (env : ProcEnv) (args : List (List Char)) : List Nat × List Nat × Nat :=
  match env args with
  | ProcOutcome.completed o e r => (o, e, r)
  | ProcOutcome.notFound => ([], encode (args.headD [] ++ chars ": not found"), 127)
  | ProcOutcome.timedOut => ([], encode (args.headD [] ++ chars ": timed out"), 124)

/-- The build strategy tag of the tool registry. -/
inductive BuildType where
  | nasmUnified : BuildType
  | nasmSubdir : BuildType
  | nasmModular : BuildType
  | gasUnified : BuildType
deriving DecidableEq

/-- One entry of the `TOOLS` registry of src/assembly/build_tool.py. -/
structure ToolConfig where
  ttype : BuildType
  source : List Char
  gnuBin : Option (List Char) := none
  helpFlag : Option (List Char) := none
  versionFlag : Option (List Char) := none
  skipVerify : Bool := false
  helpSplit : Bool := false
  modules : List (List Char) := []
  includeDir : Option (List Char) := none

/-- Fallback configuration (never reached for registered tool names). -/
def defaultToolConfig : ToolConfig :=
  { ttype := BuildType.nasmUnified, source := [] }

/-- The captured text artifacts returned by `detect_tool_data`. -/
structure DetectData where
  help : List Nat
  version : List Nat
  errUnrec : List Nat
  errInval : List Nat
  errSuffix : List Nat
deriving DecidableEq

/-- The synthetic invalid long option probed by the detector. -/
def longProbe : List Char := chars "--bogus_test_option_xyz"

/-- The synthetic invalid short option letter probed by the detector. -/
def shortProbe : List Char := chars "Z"

/-- `detect_tool_data(tool_name, config)` of src/assembly/build_tool.py.
The `find_gnu_binary` path probing is modelled by the `findBin` oracle;
informational stderr prints are not modelled. -/
def detectToolData (env : ProcEnv) (findBin : List Char → Option (List Char))
    (toolName : List Char) (cfg : ToolConfig) : Option DetectData :=
  let gnuName := cfg.gnuBin.getD toolName
  match findBin gnuName with
  | none => none
  | some gnuBin =>
    let helpFlag := cfg.helpFlag.getD (chars "--help")
    let versionFlag := cfg.versionFlag.getD (chars "--version")
    let hc := capture env [gnuBin, helpFlag]
    let vc := capture env [gnuBin, versionFlag]
    let helpText := if hc.1.isEmpty then hc.2.1 else hc.1
    let verText := if vc.1.isEmpty then vc.2.1 else vc.1
    let helpText := replaceSub helpText (encode gnuBin) (encode gnuName)
    let verText := replaceSub verText (encode gnuBin) (encode gnuName)
    let lc := capture env [gnuBin, longProbe]
    let sc := capture env [gnuBin, chars "-Z"]
    let errLong := lc.2.1
    let errShort := sc.2.1
    let eu : List Nat × List Nat :=
      if errLong.isEmpty then ([], [])
      else
        let longLines := splitOnElem 10 errLong
        let line1 := longLines.headD []
        match findSub line1 (encode longProbe) with
        | none => ([], [])
        | some p =>
          let unrec := line1.take p
          let closeQuote := line1.drop (p + (encode longProbe).length)
          let tryLine := longLines.getD 1 []
          let sfx := closeQuote ++ 10 :: (tryLine ++ [10])
          (replaceSub unrec (encode gnuBin) (encode gnuName),
           replaceSub sfx (encode gnuBin) (encode gnuName))
    let ei : List Nat :=
      if errShort.isEmpty then []
      else
        let shortLines := splitOnElem 10 errShort
        let line1 := shortLines.headD []
        match findSub line1 (encode shortProbe) with
        | none => []
        | some p => replaceSub (line1.take p) (encode gnuBin) (encode gnuName)
    some { help := helpText, version := verText,
           errUnrec := eu.1, errInval := ei, errSuffix := eu.2 }

/-- Pipeline state: the files written by the Python code itself (external
assembler and linker output files are outside the model), the printed log
lines, the argv of every external build command issued, and the paths the
Python code opened for writing, in order. -/
structure St where
  fs : List Char → Option (List Char)
  log : List (List Char)
  trace : List (List (List Char))
  writes : List (List Char)

/-- Write (create or overwrite) one file. -/
def stWrite (st : St) (path content : List Char) : St :=
  { st with fs := fun q => if q = path then some content else st.fs q,
            writes := st.writes ++ [path] }

/-- `os.unlink`. -/
def stUnlink (st : St) (path : List Char) : St :=
  { st with fs := fun q => if q = path then none else st.fs q }

/-- Append one printed line. -/
def stLog (st : St) (line : List Char) : St :=
  { st with log := st.log ++ [line] }

/-- How a build function terminates abnormally: `sys.exit` (SystemExit)
or any other uncaught exception. -/
inductive ExitKind where
  | systemExit (code : Nat) : ExitKind
  | exc : ExitKind
deriving DecidableEq

/-- Process exit status produced by an abnormal termination reaching the
interpreter top level. -/
def exitOf : ExitKind → Nat
  | ExitKind.systemExit c => c
  | ExitKind.exc => 1

/-- Oracle for the build subprocesses invoked through `run_cmd`:
(stdout, stderr, returncode) for a given argv. -/
def BuildEnv : Type := List (List Char) → List Nat × List Nat × Nat

/-- `run_cmd(args)` of src/assembly/build_tool.py with its default
`check=True`: on a non-zero status it prints `Error: <joined argv>
failed:` plus the captured stderr and raises SystemExit(1). -/
def runCmdTool (env : BuildEnv) (st : St) (args : List (List Char)) : Except (St × ExitKind) St :=
  let r := env args
  let st := { st with trace := st.trace ++ [args] }
  if r.2.2 ≠ 0 then
    let st := stLog st (chars "Error: " ++ joinWithElem ' ' args ++ chars " failed:")
    let st := if r.2.1.isEmpty then st else stLog st (decodeBytes r.2.1)
    Except.error (st, ExitKind.systemExit 1)
  else Except.ok st

/-- `run(args)` of src/assembly/yes/build.py: identical control flow, but
the error header names only argv[0]. -/
def runCmdYes (env : BuildEnv) (st : St) (args : List (List Char)) : Except (St × ExitKind) St :=
  let r := env args
  let st := { st with trace := st.trace ++ [args] }
  if r.2.2 ≠ 0 then
    let st := stLog st (chars "Error: " ++ args.headD [] ++ chars " failed:")
    let st := if r.2.1.isEmpty then st else stLog st (decodeBytes r.2.1)
    Except.error (st, ExitKind.systemExit 1)
  else Except.ok st

/-- `patch_source(source_path, data, is_gas)` of src/assembly/build_tool.py
as a content transformation.  The file read is done by the caller in this
model; `skip_help_patch` is the `help_split` flag of the tool's registry
entry, which the Python code rederives from the source path.  The
ValueError edge (start marker present with no following newline) does not
arise for the marker lines this transformation is applied to and maps to
the identity here. -/
def patchSourceContent (content : List Char) (d : DetectData) (skipHelpPatch isGas : Bool) : List Char :=
  let m := if isGas then markerGas else markerNasm
  if !(containsSub content m.1 && containsSub content m.2) then content
  else
    match parseDataSection content isGas with
    | ParseResult.labels h v =>
      let c1 := match h with
        | some hl =>
          if !d.help.isEmpty && !skipHelpPatch then replaceLabelContent content hl d.help isGas
          else content
        | none => content
      match v with
      | some vl =>
        if !d.version.isEmpty then replaceLabelContent c1 vl d.version isGas else c1
      | none => c1
    | _ => content

/-- `build_nasm_flat` of src/assembly/build_tool.py: write the patched
source to a named temporary file, assemble it, and delete the temporary
on every exit path (the `finally` clause).  `chmodFails` injects an
arbitrary non-SystemExit exception at the post-assembly `os.chmod` step. -/
def buildNasmFlat (env : BuildEnv) (st : St) (sourcePath outputPath : List Char)
    (data : Option DetectData) (skipHelpPatch : Bool) (tmpName : List Char)
    (chmodFails : Bool) : Except (St × ExitKind) St :=
  let pr : St × List Char :=
    match data with
    | some d =>
      let content := (st.fs sourcePath).getD []
      (stWrite st tmpName (patchSourceContent content d skipHelpPatch false), tmpName)
    | none => (st, sourcePath)
  let st1 := pr.1
  let asmInput := pr.2
  let body : Except (St × ExitKind) St :=
    match runCmdTool env st1 [chars "nasm", chars "-f", chars "bin", asmInput, chars "-o", outputPath] with
    | Except.error e => Except.error e
    | Except.ok st2 =>
      if chmodFails then Except.error (st2, ExitKind.exc)
      else Except.ok (stLog st2 (chars "  Built: " ++ outputPath))
  let clean : St → St := fun s =>
    if data.isSome && (s.fs asmInput).isSome then stUnlink s asmInput else s
  match body with
  | Except.ok s => Except.ok (clean s)
  | Except.error (s, k) => Except.error (clean s, k)

/-- `build_gas` of src/assembly/build_tool.py: patched source to a named
temporary, `as` then `ld` inside a temporary object directory, temporary
deleted on every exit path. -/
def buildGas (env : BuildEnv) (st : St) (sourcePath outputPath : List Char)
    (data : Option DetectData) (skipHelpPatch : Bool) (tmpName tmpDir : List Char)
    (chmodFails : Bool) : Except (St × ExitKind) St :=
  let pr : St × List Char :=
    match data with
    | some d =>
      let content := (st.fs sourcePath).getD []
      (stWrite st tmpName (patchSourceContent content d skipHelpPatch true), tmpName)
    | none => (st, sourcePath)
  let st1 := pr.1
  let asmInput := pr.2
  let objPath := tmpDir ++ chars "/output.o"
  let body : Except (St × ExitKind) St :=
    match runCmdTool env st1 [chars "as", chars "--64", asmInput, chars "-o", objPath] with
    | Except.error e => Except.error e
    | Except.ok st2 =>
      match runCmdTool env st2 [chars "ld", chars "-o", outputPath, objPath] with
      | Except.error e => Except.error e
      | Except.ok st3 =>
        if chmodFails then Except.error (st3, ExitKind.exc)
        else Except.ok (stLog st3 (chars "  Built: " ++ outputPath))
  let clean : St → St := fun s =>
    if data.isSome && (s.fs asmInput).isSome then stUnlink s asmInput else s
  match body with
  | Except.ok s => Except.ok (clean s)
  | Except.error (s, k) => Except.error (clean s, k)

/-- Object file path for one module inside the build's temporary
directory: `os.path.basename(mod).replace(".asm", ".o")`. -/
def objNameOf (tmpDir m : List Char) : List Char :=
  tmpDir ++ '/' :: replaceSub ((splitOnElem '/' m).getLastD []) (chars ".asm") (chars ".o")

/-- The per-module assembly loop of `build_nasm_modular`. -/
def assembleModules (env : BuildEnv) (includeDir tmpDir : List Char) :
    List (List Char) → St → Except (St × ExitKind) (St × List (List Char))
  | [], st => Except.ok (st, [])
  | m :: ms, st =>
    match runCmdTool env st [chars "nasm", chars "-f", chars "elf64", chars "-I",
        includeDir ++ ['/'], m, chars "-o", objNameOf tmpDir m] with
    | Except.error e => Except.error e
    | Except.ok st1 =>
      match assembleModules env includeDir tmpDir ms st1 with
      | Except.error e => Except.error e
      | Except.ok (st2, objs) => Except.ok (st2, objNameOf tmpDir m :: objs)

/-- `build_nasm_modular` of src/assembly/build_tool.py: patched main
source written inside a TemporaryDirectory, modules and main assembled to
objects, linked with `--gc-sections -n -s`; the context manager removes
the directory (and with it the patched copy) on every exit path. -/
def buildNasmModular (env : BuildEnv) (st : St) (toolDir : List Char) (cfg : ToolConfig)
    (outputPath : List Char) (data : Option DetectData) (tmpDir : List Char)
    (chmodFails : Bool) : Except (St × ExitKind) St :=
  let includeDir := toolDir ++ '/' :: cfg.includeDir.getD (chars ".")
  let mainSource := toolDir ++ '/' :: cfg.source
  let modules := cfg.modules.map (fun m => toolDir ++ '/' :: m)
  let patchedPath := tmpDir ++ chars "/main.asm"
  let pr : St × List Char :=
    match data with
    | some d =>
      let content := (st.fs mainSource).getD []
      (stWrite st patchedPath (patchSourceContent content d cfg.helpSplit false), patchedPath)
    | none => (st, mainSource)
  let st1 := pr.1
  let mainSrc := pr.2
  let body : Except (St × ExitKind) St :=
    match assembleModules env includeDir tmpDir modules st1 with
    | Except.error e => Except.error e
    | Except.ok (st2, objs) =>
      let mainObj := tmpDir ++ chars "/main.o"
      match runCmdTool env st2 [chars "nasm", chars "-f", chars "elf64", chars "-I",
          includeDir ++ ['/'], mainSrc, chars "-o", mainObj] with
      | Except.error e => Except.error e
      | Except.ok st3 =>
        match runCmdTool env st3 ([chars "ld", chars "--gc-sections", chars "-n", chars "-s",
            mainObj] ++ objs ++ [chars "-o", outputPath]) with
        | Except.error e => Except.error e
        | Except.ok st4 =>
          if chmodFails then Except.error (st4, ExitKind.exc)
          else Except.ok (stLog st4 (chars "  Built: " ++ outputPath))
  let clean : St → St := fun s =>
    if data.isSome && (s.fs patchedPath).isSome then stUnlink s patchedPath else s
  match body with
  | Except.ok s => Except.ok (clean s)
  | Except.error (s, k) => Except.error (clean s, k)

/-- `verify_tool` of src/assembly/build_tool.py (log lines abbreviated):
trivially passes without data or with `skip_verify`, compares
path-normalized help output unless `help_split`, and always compares
version output. -/
def verifyTool (env : ProcEnv) (toolName : List Char) (cfg : ToolConfig)
    (binaryPath : List Char) (data : Option DetectData) (st : St) : St × Bool :=
  match data with
  | none => (stLog st (chars "  [skip] No GNU data to verify against"), true)
  | some d =>
    if cfg.skipVerify then (stLog st (chars "  [skip] Verification skipped"), true)
    else
      let gnuName := cfg.gnuBin.getD toolName
      let helpFlag := cfg.helpFlag.getD (chars "--help")
      let versionFlag := cfg.versionFlag.getD (chars "--version")
      let p1 : St × Bool :=
        if cfg.helpSplit then (stLog st (chars "  --help: skipped (split help)"), true)
        else
          let r := capture env [binaryPath, helpFlag]
          let expected := replaceSub d.help (encode gnuName) (encode toolName)
          let got := replaceSub r.1 (encode binaryPath) (encode toolName)
          if got = expected then (stLog st (chars "  help: OK"), true)
          else (stLog st (chars "  FAIL: help output differs"), false)
      let r2 := capture env [binaryPath, versionFlag]
      let expectedV := replaceSub d.version (encode gnuName) (encode toolName)
      let gotV := replaceSub r2.1 (encode binaryPath) (encode toolName)
      if gotV = expectedV then (stLog p1.1 (chars "  version: OK"), p1.2)
      else (stLog p1.1 (chars "  FAIL: version output differs"), false)

/-- The `TOOLS` registry of src/assembly/build_tool.py. -/
def toolsRegistry : List (List Char × ToolConfig) :=
  [ (chars "true", { ttype := BuildType.nasmUnified, source := chars "ftrue_unified.asm" }),
    (chars "logname", { ttype := BuildType.nasmUnified, source := chars "flogname_unified.asm" }),
    (chars "hostid", { ttype := BuildType.nasmUnified, source := chars "fhostid_unified.asm" }),
    (chars "tty", { ttype := BuildType.nasmUnified, source := chars "ftty_unified.asm" }),
    (chars "whoami", { ttype := BuildType.nasmUnified, source := chars "fwhoami_unified.asm" }),
    (chars "pwd", { ttype := BuildType.nasmUnified, source := chars "fpwd_unified.asm",
                    helpSplit := true }),
    (chars "sync", { ttype := BuildType.nasmUnified, source := chars "fsync_unified.asm" }),
    (chars "sleep", { ttype := BuildType.nasmUnified, source := chars "fsleep_unified.asm" }),
    (chars "echo", { ttype := BuildType.nasmUnified, source := chars "fecho_unified.asm" }),
    (chars "head", { ttype := BuildType.nasmSubdir, source := chars "unified/fhead_unified.asm" }),
    (chars "tail", { ttype := BuildType.nasmSubdir, source := chars "unified/ftail_unified.asm" }),
    (chars "tac", { ttype := BuildType.nasmSubdir, source := chars "unified/ftac_unified.asm" }),
    (chars "rev", { ttype := BuildType.nasmSubdir, source := chars "unified/frev_unified.asm",
                    gnuBin := some (chars "rev"), skipVerify := true,
                    helpFlag := some (chars "-h"), versionFlag := some (chars "-V") }),
    (chars "cut", { ttype := BuildType.nasmSubdir, source := chars "unified/fcut_unified.asm" }),
    (chars "tr", { ttype := BuildType.nasmSubdir, source := chars "unified/ftr_unified.asm" }),
    (chars "base64", { ttype := BuildType.nasmSubdir, source := chars "unified/fbase64_unified.asm" }),
    (chars "md5sum", { ttype := BuildType.nasmSubdir, source := chars "unified/fmd5sum_unified.asm" }),
    (chars "wc", { ttype := BuildType.nasmModular, source := chars "tools/fwc.asm",
                   modules := [chars "lib/io.asm", chars "lib/str.asm"],
                   includeDir := some (chars ".") }),
    (chars "arch", { ttype := BuildType.gasUnified, source := chars "farch_unified.s" }) ]

/-- Lexicographic comparison of tool names by code point, Python string
ordering for `sorted`. -/
def lexLe : List Char → List Char → Bool
  | [], _ => true
  | _ :: _, [] => false
  | x :: xs, y :: ys => if x = y then lexLe xs ys else decide (x < y)

/-- Stable insertion used to model Python `sorted`. -/
def insertSorted (a : List Char) : List (List Char) → List (List Char)
  | [] => [a]
  | b :: bs => if lexLe a b then a :: b :: bs else b :: insertSorted a bs

/-- Python `sorted(...)` over tool names. -/
def sortNames : List (List Char) → List (List Char)
  | [] => []
  | a :: rest => insertSorted a (sortNames rest)

/-- The oracles a batch run depends on: probe subprocess behaviour,
`find_gnu_binary` resolution, build subprocess behaviour, and the fresh
temporary names handed out by tempfile per tool. -/
structure Oracles where
  probeEnv : ProcEnv
  findBin : List Char → Option (List Char)
  buildEnv : BuildEnv
  tmpOf : List Char → List Char
  tmpDirOf : List Char → List Char

/-- `SCRIPT_DIR` as a relative model path. -/
def scriptDir : List Char := chars "assembly"

/-- One iteration of the `--all` loop of `main` in
src/assembly/build_tool.py with default flags (patching and verification
enabled): print the tool header, detect, dispatch the build strategy, and
verify.  Informational detection prints are not modelled. -/
def processOne (o : Oracles) (t : List Char) (st : St) : Except (St × ExitKind) (St × Bool) :=
  let cfg := ((toolsRegistry.find? (fun p => p.1 == t)).map Prod.snd).getD defaultToolConfig
  let st := stLog st (chars "=== " ++ t ++ chars " ===")
  let toolDir := scriptDir ++ '/' :: t
  let sourcePath := toolDir ++ '/' :: cfg.source
  let outputPath := toolDir ++ chars "/f" ++ t
  let data := detectToolData o.probeEnv o.findBin t cfg
  let built : Except (St × ExitKind) St :=
    match cfg.ttype with
    | BuildType.nasmUnified =>
      buildNasmFlat o.buildEnv st sourcePath outputPath data cfg.helpSplit (o.tmpOf t) false
    | BuildType.nasmSubdir =>
      buildNasmFlat o.buildEnv st sourcePath outputPath data cfg.helpSplit (o.tmpOf t) false
    | BuildType.nasmModular =>
      buildNasmModular o.buildEnv st toolDir cfg outputPath data (o.tmpDirOf t) false
    | BuildType.gasUnified =>
      buildGas o.buildEnv st sourcePath outputPath data cfg.helpSplit (o.tmpOf t) (o.tmpDirOf t) false
  match built with
  | Except.error e => Except.error e
  | Except.ok st1 => Except.ok (verifyTool o.probeEnv t cfg outputPath data st1)

/-- The `--all` batch loop of `main`: tools processed strictly in order,
verification results counted; a SystemExit raised by a build is not
caught anywhere, so it aborts the whole loop. -/
def mainGo (o : Oracles) : List (List Char) → St → Nat → Nat → Except (St × ExitKind) (St × Nat × Nat)
  | [], st, okc, failc => Except.ok (st, okc, failc)
  | t :: rest, st, okc, failc =>
    match processOne o t st with
    | Except.error e => Except.error e
    | Except.ok (st1, vok) =>
      mainGo o rest st1 (if vok then okc + 1 else okc) (if vok then failc else failc + 1)

/-- Decimal rendering for the results line. -/
def natToChars (n : Nat) : List Char := (Nat.repr n).data

/-- The initial pipeline state of a fresh process run. -/
def stInit : St := { fs := fun _ => none, log := [], trace := [], writes := [] }

/-- `main` of src/assembly/build_tool.py restricted to a `--all`-style
batch over the given tool names: on normal completion print the results
line and exit 1 exactly when some verification failed; an uncaught
SystemExit or other exception becomes the process exit status. -/
def mainAllOver (o : Oracles) (names : List (List Char)) : Nat × St :=
  match mainGo o names stInit 0 0 with
  | Except.ok (st, okc, failc) =>
    let st := stLog st (chars "Results: " ++ natToChars okc ++ chars " OK, " ++
      natToChars failc ++ chars " FAIL out of " ++ natToChars names.length ++ chars " tools")
    ((if failc > 0 then 1 else 0), st)
  | Except.error (st, k) => (exitOf k, st)

/-- The full `--all` run over `sorted(TOOLS.keys())`. -/
def mainAll (o : Oracles) : Nat × St :=
  mainAllOver o (sortNames (toolsRegistry.map Prod.fst))

/-- `patch_asm(src_path, new_data, markers)` of src/assembly/yes/build.py:
the patched text (or, when the markers are missing, a verbatim copy) is
written to a fresh temporary path; the original path is only read. -/
def patchAsm (st : St) (srcPath newData : List Char) (markers : List Char × List Char)
    (tmpName : List Char) : St × List Char :=
  let content := (st.fs srcPath).getD []
  match findSub content markers.1, findSub content markers.2 with
  | some si, _e =>
    match findSub content markers.2 with
    | some ei =>
      let before := content.take (si + markers.1.length)
      let after := content.drop ei
      (stWrite st tmpName (before ++ '\n' :: (newData ++ '\n' :: after)), tmpName)
    | none => (stWrite (stLog st (chars "  [warn] markers not found")) tmpName content, tmpName)
  | none, _ => (stWrite (stLog st (chars "  [warn] markers not found")) tmpName content, tmpName)

/-- `build_linux_x86_64` of src/assembly/yes/build.py. -/
def buildLinuxX8664 (env : BuildEnv) (st : St) (asmPath output : List Char)
    (chmodFails : Bool) : Except (St × ExitKind) St :=
  match runCmdYes env st [chars "nasm", chars "-f", chars "bin", asmPath, chars "-o", output] with
  | Except.error e => Except.error e
  | Except.ok st1 =>
    if chmodFails then Except.error (st1, ExitKind.exc)
    else Except.ok (stLog st1 (chars "  Built " ++ output))

/-- The build portion of `main` in src/assembly/yes/build.py for the
linux-x86_64 target: patch into a temporary copy when data was detected,
assemble, verify (captures only, modelled as a log line), and in the
`finally` clause delete the temporary on every exit path.  `newData` is
the generated data section `GENERATORS[target](data)`. -/
def yesMain (env : BuildEnv) (st : St) (data : Option DetectData) (newData : List Char)
    (asmFile outName tmpName : List Char) (chmodFails : Bool) : Except (St × ExitKind) St :=
  let pr : St × Option (List Char) :=
    match data with
    | some _ =>
      let p := patchAsm st asmFile newData markerNasm tmpName
      (p.1, some p.2)
    | none => (st, none)
  let st1 := pr.1
  let tmpAsm := pr.2
  let asmToBuild := tmpAsm.getD asmFile
  let body : Except (St × ExitKind) St :=
    match buildLinuxX8664 env st1 asmToBuild outName chmodFails with
    | Except.error e => Except.error e
    | Except.ok st2 => Except.ok (stLog st2 (chars "[*] Verifying..."))
  let clean : St → St := fun s =>
    match tmpAsm with
    | some tp => if (s.fs tp).isSome then stUnlink s tp else s
    | none => s
  match body with
  | Except.ok s => Except.ok (clean s)
  | Except.error (s, k) => Except.error (clean s, k)

/-- The state left behind by a build on either exit path. -/
def finalStOf : Except (St × ExitKind) St → St
  | Except.ok s => s
  | Except.error (s, _) => s


/-- Build-command oracle for the concrete batch scenario: every `as`
invocation fails with the diagnostic `undefined symbol`, everything else
succeeds. -/
def envAsFails : BuildEnv := fun args =>
  if args.headD [] = chars "as" then ([], encode (chars "undefined symbol"), 1) else ([], [], 0)

/-- Concrete oracles for the batch scenario: no reference binary is
found (so no patching happens), `as` fails, temporary names are fixed. -/
def oraclesAsFails : Oracles :=
  { probeEnv := fun _ => ProcOutcome.completed [] [] 0,
    findBin := fun _ => none,
    buildEnv := envAsFails,
    tmpOf := fun t => chars "/tmp/patched-" ++ t,
    tmpDirOf := fun _ => chars "/tmp/d" }

/-- The state in which the batch under `oraclesAsFails` aborts: the first
tool in sorted order is `arch`, its `as` invocation fails, the diagnostic
is printed, and no later tool is ever started. -/
def stArchFailed : St :=
  { fs := fun _ => none,
    log := [chars "=== arch ===",
            chars "Error: as --64 assembly/arch/farch_unified.s -o /tmp/d/output.o failed:",
            chars "undefined symbol"],
    trace := [[chars "as", chars "--64", chars "assembly/arch/farch_unified.s",
               chars "-o", chars "/tmp/d/output.o"]],
    writes := [] }

/-! Infrastructure lemmas about the embedded string primitives. -/

theorem listStartsWith_iff {α : Type} [DecidableEq α] (s p : List α) :
    listStartsWith s p = true ↔ ∃ t, s = p ++ t := by
  induction p generalizing s with
  | nil => simp [listStartsWith]
  | cons x xs ih =>
    cases s with
    | nil => simp [listStartsWith]
    | cons c cs =>
      simp only [listStartsWith, Bool.and_eq_true, decide_eq_true_eq, ih,
        List.cons_append, List.cons.injEq]
      constructor
      · rintro ⟨h1, t, h2⟩
        exact ⟨t, h1, h2⟩
      · rintro ⟨t, h1, h2⟩
        exact ⟨h1, t, h2⟩

theorem listStartsWith_refl_append {α : Type} [DecidableEq α] (p t : List α) :
    listStartsWith (p ++ t) p = true :=
  (listStartsWith_iff _ _).mpr ⟨t, rfl⟩

theorem listStartsWith_mem {α : Type} [DecidableEq α] {s p : List α}
    (h : listStartsWith s p = true) : ∀ c ∈ p, c ∈ s := by
  obtain ⟨t, rfl⟩ := (listStartsWith_iff s p).mp h
  intro c hc
  exact List.mem_append_left t hc

theorem containsSub_mem {α : Type} [DecidableEq α] {s pat : List α}
    (h : containsSub s pat = true) : ∀ c ∈ pat, c ∈ s := by
  induction s with
  | nil =>
    rw [containsSub] at h
    exact listStartsWith_mem h
  | cons a rest ih =>
    rw [containsSub] at h
    split at h
    · next hs => exact listStartsWith_mem hs
    · intro c hc
      exact List.mem_cons_of_mem a (ih h c hc)

theorem containsSub_append_right {α : Type} [DecidableEq α] (x : List α) {y pat : List α}
    (h : containsSub y pat = true) : containsSub (x ++ y) pat = true := by
  induction x with
  | nil => simpa using h
  | cons a rest ih =>
    rw [List.cons_append, containsSub]
    split
    · rfl
    · exact ih

theorem containsSub_of_startsWith {α : Type} [DecidableEq α] {s pat : List α}
    (h : listStartsWith s pat = true) : containsSub s pat = true := by
  cases s with
  | nil => rw [containsSub]; exact h
  | cons a rest => rw [containsSub]; simp [h]

theorem splitOnElem_ne_nil {α : Type} [DecidableEq α] (sep : α) (s : List α) :
    splitOnElem sep s ≠ [] := by
  induction s with
  | nil => simp [splitOnElem]
  | cons c rest ih =>
    rw [splitOnElem]
    split
    · simp
    · cases h : splitOnElem sep rest with
      | nil => exact absurd h ih
      | cons l ls => simp

theorem joinWithElem_splitOnElem {α : Type} [DecidableEq α] (sep : α) (s : List α) :
    joinWithElem sep (splitOnElem sep s) = s := by
  induction s with
  | nil => rfl
  | cons c rest ih =>
    rw [splitOnElem]
    split
    · next hc =>
      subst hc
      cases h : splitOnElem c rest with
      | nil => exact absurd h (splitOnElem_ne_nil c rest)
      | cons l ls =>
        rw [h] at ih
        simp [joinWithElem, ih]
    · next hc =>
      cases h : splitOnElem sep rest with
      | nil => exact absurd h (splitOnElem_ne_nil sep rest)
      | cons l ls =>
        rw [h] at ih
        cases ls with
        | nil =>
          simp only [joinWithElem] at ih ⊢
          simp [ih]
        | cons l2 ls2 =>
          simp only [joinWithElem] at ih ⊢
          simp [ih]

theorem splitOnElem_of_not_mem {α : Type} [DecidableEq α] {sep : α} {s : List α}
    (h : sep ∉ s) : splitOnElem sep s = [s] := by
  induction s with
  | nil => rfl
  | cons c rest ih =>
    rw [splitOnElem]
    split
    · next hc =>
      subst hc
      exact absurd (List.mem_cons_self c rest) h
    · rw [ih (fun hm => h (List.mem_cons_of_mem c hm))]

theorem splitOnElem_append_sep {α : Type} [DecidableEq α] {sep : α} {x : List α}
    (h : sep ∉ x) (z : List α) :
    splitOnElem sep (x ++ sep :: z) = x :: splitOnElem sep z := by
  induction x with
  | nil => simp [splitOnElem]
  | cons c rest ih =>
    have hc : ¬(c = sep) := fun hc => h (hc ▸ List.mem_cons_self c rest)
    rw [List.cons_append, splitOnElem]
    split
    · next hcc => exact absurd hcc hc
    · rw [ih (fun hm => h (List.mem_cons_of_mem c hm))]

theorem splitOnElem_joinWithElem {α : Type} [DecidableEq α] (sep : α) (ls : List (List α))
    (hne : ls ≠ []) (hf : ∀ l ∈ ls, sep ∉ l) :
    splitOnElem sep (joinWithElem sep ls) = ls := by
  induction ls with
  | nil => exact absurd rfl hne
  | cons l rest ih =>
    cases rest with
    | nil =>
      simp only [joinWithElem]
      exact splitOnElem_of_not_mem (hf l (List.mem_cons_self l []))
    | cons l2 rest2 =>
      have hj : joinWithElem sep (l :: l2 :: rest2) = l ++ sep :: joinWithElem sep (l2 :: rest2) := rfl
      rw [hj, splitOnElem_append_sep (hf l (List.mem_cons_self l _))]
      rw [ih (fun hn => List.noConfusion hn) (fun a ha => hf a (List.mem_cons_of_mem l ha))]

theorem dropWhile_eq_self_of_head {p : Char → Bool} {s : List Char}
    (h : ∀ c, s.head? = some c → p c = false) : s.dropWhile p = s := by
  cases s with
  | nil => rfl
  | cons c t =>
    rw [List.dropWhile_cons, h c rfl]
    simp

theorem dropWhile_append_of_all {p : Char → Bool} {pre : List Char}
    (h : ∀ c ∈ pre, p c = true) (core : List Char) :
    (pre ++ core).dropWhile p = core.dropWhile p := by
  induction pre with
  | nil => simp
  | cons c t ih =>
    rw [List.cons_append, List.dropWhile_cons, h c (List.mem_cons_self c t)]
    simp only [if_true]
    exact ih (fun d hd => h d (List.mem_cons_of_mem c hd))

theorem strip_eq_self_of (s : List Char)
    (h1 : ∀ c, s.head? = some c → isPyWs c = false)
    (h2 : ∀ c, s.getLast? = some c → isPyWs c = false) : strip s = s := by
  unfold strip
  rw [dropWhile_eq_self_of_head h1]
  have e2 : s.reverse.dropWhile isPyWs = s.reverse := by
    apply dropWhile_eq_self_of_head
    intro c hc
    exact h2 c (by rwa [List.head?_reverse] at hc)
  rw [e2, List.reverse_reverse]

theorem strip_ws_append (pre core : List Char)
    (hp : ∀ c ∈ pre, isPyWs c = true)
    (h1 : ∀ c, core.head? = some c → isPyWs c = false)
    (h2 : ∀ c, core.getLast? = some c → isPyWs c = false) :
    strip (pre ++ core) = core := by
  unfold strip
  rw [dropWhile_append_of_all hp, dropWhile_eq_self_of_head h1]
  have e2 : core.reverse.dropWhile isPyWs = core.reverse := by
    apply dropWhile_eq_self_of_head
    intro c hc
    exact h2 c (by rwa [List.head?_reverse] at hc)
  rw [e2, List.reverse_reverse]

theorem getD_prop {α : Type} (P : α → Prop) (l : List α) (n : Nat) (d : α)
    (hd : P d) (hl : ∀ x ∈ l, P x) : P (l.getD n d) := by
  rw [List.getD_eq_getD_get?]
  cases h : l.get? n with
  | none => simpa [h] using hd
  | some x =>
    have : x ∈ l := List.get?_mem h
    simpa [h] using hl x this

theorem hexDigitChar_not_comma (n : Nat) : hexDigitChar n ≠ ',' := by
  unfold hexDigitChar
  exact getD_prop (· ≠ ',') _ n '0' (by decide) (by decide)

theorem hexDigitChar_not_ws (n : Nat) : isPyWs (hexDigitChar n) = false := by
  unfold hexDigitChar
  exact getD_prop (isPyWs · = false) _ n '0' (by decide) (by decide)

theorem wordChar_not_special {c : Char} (h : isWordChar c = true) :
    c ∉ [',', ':', ' ', '.', ';', '/', '\t', '\n', '\x0b', '\x0c', '\r'] := by
  intro hmem
  fin_cases hmem <;> exact absurd h (by decide)

theorem wordChar_not_ws {c : Char} (h : isWordChar c = true) : isPyWs c = false := by
  have hs := wordChar_not_special h
  simp only [List.mem_cons, List.mem_singleton, not_or] at hs
  obtain ⟨_, _, h3, _, _, _, h7, h8, h9, h10, h11⟩ := hs
  simp [isPyWs, h3, h7, h8, h9, h10, h11]

theorem pyLower_cases (c : Char) :
    pyLower c = c ∨ pyLower c ∈ chars "abcdefghijklmnopqrstuvwxyz" := by
  unfold pyLower
  split <;> first
    | exact Or.inl rfl
    | exact Or.inr (by decide)

theorem count_comma_hexByte (b : Nat) : (hexByte b).count ',' = 0 := by
  have h1 := hexDigitChar_not_comma (b / 16)
  have h2 := hexDigitChar_not_comma (b % 16)
  simp [hexByte, List.count_cons, List.count_nil, h1, h2]

theorem opsOf_ne_nil : ∀ (c : List Nat), c ≠ [] → opsOf c ≠ []
  | [], h => absurd rfl h
  | [_], _ => by simp [opsOf, hexByte]
  | _ :: _ :: _, _ => by simp [opsOf, hexByte]

theorem count_comma_opsOf : ∀ (c : List Nat), c ≠ [] → (opsOf c).count ',' = c.length - 1
  | [], h => absurd rfl h
  | [b], _ => by simp [opsOf, count_comma_hexByte]
  | b :: b2 :: rest, _ => by
    have ih := count_comma_opsOf (b2 :: rest) (fun hn => List.noConfusion hn)
    have hexp : opsOf (b :: b2 :: rest) = hexByte b ++ chars ", " ++ opsOf (b2 :: rest) := rfl
    rw [hexp]
    simp only [List.count_append, count_comma_hexByte, ih]
    have hcc : (chars ", ").count ',' = 1 := by decide
    rw [hcc]
    simp only [List.length_cons]
    omega

theorem chunksAux_spec : ∀ (l cur : List Nat), cur.length ≤ 15 →
    chunksAux l cur = if cur.reverse ++ l = [] then []
      else ((cur.reverse ++ l).take 16) :: chunks16 ((cur.reverse ++ l).drop 16) := by
  intro l
  induction l with
  | nil =>
    intro cur hc
    rw [chunksAux]
    by_cases hc0 : cur = []
    · subst hc0
      simp
    · rw [if_neg hc0, List.append_nil, if_neg (by simpa using hc0)]
      have ht : cur.reverse.take 16 = cur.reverse := by
        apply List.take_of_length_le
        simp only [List.length_reverse]
        omega
      have hd : cur.reverse.drop 16 = [] := by
        apply List.drop_eq_nil_of_le
        simp only [List.length_reverse]
        omega
      rw [ht, hd]
      rfl
  | cons b rest ih =>
    intro cur hc
    rw [chunksAux]
    by_cases h16 : (b :: cur).length = 16
    · rw [if_pos h16]
      have hlen : cur.reverse.length = 15 := by
        simp only [List.length_cons] at h16
        simp only [List.length_reverse]
        omega
      have hne : ¬(cur.reverse ++ b :: rest = []) := by simp
      rw [if_neg hne]
      have ht : (cur.reverse ++ b :: rest).take 16 = cur.reverse ++ [b] := by
        rw [List.take_append_eq_append_take, hlen]
        rw [List.take_of_length_le (by omega)]
        rfl
      have hd : (cur.reverse ++ b :: rest).drop 16 = rest := by
        rw [List.drop_append_eq_append_drop, hlen]
        rw [List.drop_eq_nil_of_le (by omega)]
        rfl
      rw [ht, hd, List.reverse_cons]
      rfl
    · rw [if_neg h16]
      have hlt : (b :: cur).length ≤ 15 := by
        simp only [List.length_cons] at h16 ⊢
        omega
      rw [ih (b :: cur) hlt]
      have he : (b :: cur).reverse ++ rest = cur.reverse ++ b :: rest := by simp
      rw [he]

theorem chunks16_step (b : Nat) (rest : List Nat) :
    chunks16 (b :: rest) = ((b :: rest).take 16) :: chunks16 (rest.drop 15) := by
  have h := chunksAux_spec (b :: rest) [] (by simp)
  simp only [List.reverse_nil, List.nil_append] at h
  rw [if_neg (by simp)] at h
  exact h

theorem chunks16_sum : ∀ (l : List Nat), ((chunks16 l).map List.length).sum = l.length
  | [] => by simp [chunks16, chunksAux]
  | b :: rest => by
    have ih := chunks16_sum (rest.drop 15)
    rw [chunks16_step]
    simp only [List.map_cons, List.sum_cons, List.length_take, List.length_cons,
      List.length_drop] at *
    omega
termination_by l => l.length
decreasing_by
  simp only [List.length_cons, List.length_drop]
  omega

theorem chunks16_mem_ne_nil : ∀ (l : List Nat), ∀ c ∈ chunks16 l, c ≠ []
  | [] => by simp [chunks16, chunksAux]
  | b :: rest => by
    have ih := chunks16_mem_ne_nil (rest.drop 15)
    rw [chunks16_step]
    intro c hc
    rcases List.mem_cons.mp hc with h | h
    · subst h
      simp
    · exact ih c h
termination_by l => l.length
decreasing_by
  simp only [List.length_cons, List.length_drop]
  omega

theorem chunks16_nil_iff (l : List Nat) : chunks16 l = [] ↔ l = [] := by
  cases l with
  | nil => simp [chunks16, chunksAux]
  | cons b rest => rw [chunks16_step]; simp

theorem startsWith_append_ne {α : Type} [DecidableEq α] (x : List α) {a b : α}
    (h : a ≠ b) (t u : List α) :
    listStartsWith (x ++ a :: t) (x ++ b :: u) = false := by
  induction x with
  | nil => simp [listStartsWith, h]
  | cons c cs ih => simp [listStartsWith, ih]

theorem startsWith_head {α : Type} [DecidableEq α] {s p : List α} {a : α}
    (h : listStartsWith s (a :: p) = true) : s.head? = some a := by
  obtain ⟨t, rfl⟩ := (listStartsWith_iff _ _).mp h
  rfl

theorem startsWith_disjoint {α : Type} [DecidableEq α] {s x t : List α} {a b : α}
    (h : listStartsWith s (x ++ a :: t) = true) (hne : a ≠ b) (u : List α) :
    listStartsWith s (x ++ b :: u) = false := by
  obtain ⟨t', rfl⟩ := (listStartsWith_iff _ _).mp h
  have hx : x ++ a :: t ++ t' = x ++ a :: (t ++ t') := by simp
  rw [hx]
  exact startsWith_append_ne x hne (t ++ t') u

theorem gasLabelDef_chars {sl : List Char} (h : isGasLabelDef sl = true) :
    ∀ c ∈ sl, isWordChar c = true ∨ c = ':' := by
  unfold isGasLabelDef at h
  simp only [Bool.and_eq_true, decide_eq_true_eq] at h
  intro c hc
  rw [h.2] at hc
  rcases List.mem_append.mp hc with hw | hcol
  · exact Or.inl (List.mem_takeWhile_imp hw)
  · simp only [List.mem_singleton] at hcol
    exact Or.inr hcol

theorem lower_word_chars {sl : List Char}
    (h : ∀ c ∈ sl, isWordChar c = true ∨ c = ':') :
    ∀ c ∈ lowerStr sl, isWordChar c = true ∨ c = ':' := by
  intro c hc
  unfold lowerStr at hc
  obtain ⟨d, hd, rfl⟩ := List.mem_map.mp hc
  rcases pyLower_cases d with he | hlow
  · rw [he]; exact h d hd
  · left
    revert hlow
    generalize pyLower d = e
    intro hlow
    fin_cases hlow <;> decide

theorem word_colon_no_space {sl : List Char}
    (h : ∀ c ∈ sl, isWordChar c = true ∨ c = ':') : ' ' ∉ sl := by
  intro hmem
  rcases h ' ' hmem with hw | hc
  · exact absurd hw (by decide)
  · exact absurd hc (by decide)

theorem word_colon_no_dot {sl : List Char}
    (h : ∀ c ∈ sl, isWordChar c = true ∨ c = ':') : '.' ∉ sl := by
  intro hmem
  rcases h '.' hmem with hw | hc
  · exact absurd hw (by decide)
  · exact absurd hc (by decide)

theorem word_colon_not_consumable {sl : List Char}
    (hne : sl ≠ [])
    (h : ∀ c ∈ sl, isWordChar c = true ∨ c = ':') : consumable sl = false := by
  have hlow := lower_word_chars h
  have hsp : ' ' ∉ lowerStr sl := word_colon_no_space hlow
  have hdot : '.' ∉ lowerStr sl := word_colon_no_dot hlow
  have hsemi : ';' ∉ sl := by
    intro hmem
    rcases h ';' hmem with hw | hc
    · exact absurd hw (by decide)
    · exact absurd hc (by decide)
  have hslash : '/' ∉ sl := by
    intro hmem
    rcases h '/' hmem with hw | hc
    · exact absurd hw (by decide)
    · exact absurd hc (by decide)
  have hspo : ' ' ∉ sl := word_colon_no_space h
  unfold consumable
  simp only [Bool.or_eq_false_iff]
  refine ⟨⟨⟨⟨⟨⟨⟨?_, ?_⟩, ?_⟩, ?_⟩, ?_⟩, ?_⟩, ?_⟩, ?_⟩
  · cases hb : listStartsWith (lowerStr sl) (chars "db ") with
    | false => rfl
    | true => exact absurd (listStartsWith_mem hb ' ' (by decide)) hsp
  · cases hb : containsSub (lowerStr sl) (chars "db 0x") with
    | false => rfl
    | true => exact absurd (containsSub_mem hb ' ' (by decide)) hsp
  · cases hb : listStartsWith (lowerStr sl) (chars ".byte") with
    | false => rfl
    | true => exact absurd (listStartsWith_mem hb '.' (by decide)) hdot
  · cases hb : listStartsWith (lowerStr sl) (chars ".ascii") with
    | false => rfl
    | true => exact absurd (listStartsWith_mem hb '.' (by decide)) hdot
  · simpa [List.isEmpty_iff] using hne
  · cases hb : listStartsWith sl (chars ";") with
    | false => rfl
    | true => exact absurd (listStartsWith_mem hb ';' (by decide)) hsemi
  · cases hb : listStartsWith sl (chars "//") with
    | false => rfl
    | true => exact absurd (listStartsWith_mem hb '/' (by decide)) hslash
  · cases hb : listStartsWith sl (chars "                ") with
    | false => rfl
    | true => exact absurd (listStartsWith_mem hb ' ' (by decide)) hspo

/-! Behaviour of the inner scanning loop of `replace_label_content`. -/

theorem scanOld_consume (label l : List Char) (rest : List (List Char)) (isGas : Bool)
    (h : consumedByScan isGas label (strip l) = true) :
    scanOld label isGas (l :: rest) = scanOld label isGas rest := by
  cases isGas with
  | false =>
    simp only [consumedByScan, if_neg, Bool.false_eq_true, if_false,
      Bool.and_eq_true, Bool.not_eq_true'] at h
    obtain ⟨⟨⟨h1, h2⟩, h3⟩, h4⟩ := h
    rw [scanOld.eq_def]
    simp [h1, h2, h3, h4]
  | true =>
    simp only [consumedByScan, if_true, Bool.and_eq_true, Bool.not_eq_true'] at h
    obtain ⟨⟨⟨h1, h2⟩, h3⟩, h4⟩ := h
    have h3n : ¬(strip l = label ++ chars "_end:") := of_decide_eq_false h3
    rw [scanOld.eq_def]
    simp [h1, h2, h3n, h4, ← List.append_assoc]

theorem scanOld_skip_block (label : List Char) (isGas : Bool) (block : List (List Char))
    (hb : ∀ b ∈ block, consumedByScan isGas label (strip b) = true)
    (rest : List (List Char)) :
    scanOld label isGas (block ++ rest) = scanOld label isGas rest := by
  induction block with
  | nil => rfl
  | cons b bs ih =>
    rw [List.cons_append,
      scanOld_consume label b (bs ++ rest) isGas (hb b (List.mem_cons_self b bs))]
    exact ih (fun x hx => hb x (List.mem_cons_of_mem b hx))

theorem scanOld_stop (label L : List Char) (rest : List (List Char)) (isGas : Bool)
    (h : unrelatedLabelStop isGas label (strip L) = true) :
    scanOld label isGas (L :: rest) = ([], L :: rest) := by
  cases isGas with
  | false =>
    simp only [unrelatedLabelStop, Bool.false_eq_true, if_false,
      Bool.and_eq_true, Bool.not_eq_true'] at h
    obtain ⟨⟨⟨h1, h2⟩, h3⟩, h4⟩ := h
    rw [scanOld.eq_def]
    simp [h1, h2, h3, h4]
  | true =>
    simp only [unrelatedLabelStop, if_true, Bool.and_eq_true, Bool.not_eq_true',
      decide_eq_false_iff_not] at h
    obtain ⟨h1, h2⟩ := h
    have hchars := gasLabelDef_chars h1
    have hwne : (strip L).takeWhile isWordChar ≠ [] := by
      unfold isGasLabelDef at h1
      simp only [Bool.and_eq_true, decide_eq_true_eq, Bool.not_eq_true'] at h1
      intro hw
      rw [hw] at h1
      simp at h1
    have hhead : ∃ c, (strip L).head? = some c ∧ isWordChar c = true := by
      unfold isGasLabelDef at h1
      simp only [Bool.and_eq_true, decide_eq_true_eq] at h1
      cases hw : (strip L).takeWhile isWordChar with
      | nil => exact absurd hw hwne
      | cons c w' =>
        refine ⟨c, ?_, ?_⟩
        · rw [h1.2, hw]; rfl
        · exact List.mem_takeWhile_imp (hw ▸ List.mem_cons_self c w')
    obtain ⟨c, hc, hcw⟩ := hhead
    have hset : listStartsWith (strip L) (chars ".set " ++ label ++ chars "_len") = false := by
      cases hb : listStartsWith (strip L) (chars ".set " ++ label ++ chars "_len") with
      | false => rfl
      | true =>
        have := startsWith_head (s := strip L) (a := '.')
          (p := chars "set " ++ label ++ chars "_len") (by simpa using hb)
        rw [this] at hc
        simp only [Option.some.injEq] at hc
        subst hc
        exact absurd hcw (by decide)
    have hequ : listStartsWith (strip L) (chars ".equ " ++ label ++ chars "_len") = false := by
      cases hb : listStartsWith (strip L) (chars ".equ " ++ label ++ chars "_len") with
      | false => rfl
      | true =>
        have := startsWith_head (s := strip L) (a := '.')
          (p := chars "equ " ++ label ++ chars "_len") (by simpa using hb)
        rw [this] at hc
        simp only [Option.some.injEq] at hc
        subst hc
        exact absurd hcw (by decide)
    have hne : strip L ≠ [] := by
      intro he
      rw [he] at hc
      exact Option.noConfusion hc
    have hcons : consumable (strip L) = false :=
      word_colon_not_consumable hne hchars
    rw [scanOld.eq_def]
    simp [hset, hequ, h2, hcons, ← List.append_assoc]

theorem scanOld_len (label l0 r : List Char) (rest : List (List Char)) (isGas : Bool)
    (h : regenFor isGas label (strip l0) = some r) :
    scanOld label isGas (l0 :: rest) = ([r], rest) := by
  cases isGas with
  | false =>
    simp only [regenFor, Bool.false_eq_true, if_false] at h
    split at h
    · next hc =>
      injection h with h
      subst h
      rw [scanOld.eq_def]
      simp [hc]
    · exact Option.noConfusion h
  | true =>
    simp only [regenFor, if_true] at h
    split at h
    · next hc =>
      injection h with h
      subst h
      rw [scanOld.eq_def]
      simp [hc, ← List.append_assoc]
    · next hc1 =>
      split at h
      · next hc2 =>
        injection h with h
        subst h
        have hc1f : listStartsWith (strip l0) (chars ".set " ++ label ++ chars "_len") = false :=
          Bool.not_eq_true _ ▸ (by simpa using hc1)
        rw [scanOld.eq_def]
        simp [hc1f, hc2, ← List.append_assoc]
      · exact Option.noConfusion h

theorem scanOld_end (label l0 l1 : List Char) (rest : List (List Char)) (isGas : Bool)
    (hlab : label ≠ []) (hlw : label.all isWordChar = true)
    (h0 : endLabelForm isGas label (strip l0) = true)
    (h1 : containsSub (strip l1) (chars "_len") = true) :
    scanOld label isGas (l0 :: l1 :: rest) = (endEmit isGas label l1, rest) := by
  cases isGas with
  | false =>
    simp only [endLabelForm, Bool.false_eq_true, if_false] at h0
    have e1 : label ++ chars "_end" = (label ++ ['_']) ++ ('e' :: ['n', 'd']) := by
      rw [List.append_assoc]
      rfl
    have h0' : listStartsWith (strip l0) ((label ++ ['_']) ++ ('e' :: ['n', 'd'])) = true := by
      rw [← e1]
      exact h0
    have hnl0 := startsWith_disjoint h0' (by decide : 'e' ≠ 'l') ['e', 'n']
    have hnl : listStartsWith (strip l0) (label ++ chars "_len") = false := by
      have e2 : label ++ chars "_len" = (label ++ ['_']) ++ ('l' :: ['e', 'n']) := by
        rw [List.append_assoc]
        rfl
      rw [e2]
      exact hnl0
    rw [scanOld.eq_def]
    simp [hnl, h0, h1, endEmit]
  | true =>
    simp only [endLabelForm, if_true, decide_eq_true_eq] at h0
    obtain ⟨c, label', rfl⟩ : ∃ c label', label = c :: label' := by
      cases label with
      | nil => exact absurd rfl hlab
      | cons c l' => exact ⟨c, l', rfl⟩
    have hcw : isWordChar c = true := by
      simp only [List.all_cons, Bool.and_eq_true] at hlw
      exact hlw.1
    have hhead : (strip l0).head? = some c := by
      rw [h0]
      rfl
    have hset : listStartsWith (strip l0) (chars ".set " ++ (c :: label') ++ chars "_len") = false := by
      cases hb : listStartsWith (strip l0) (chars ".set " ++ (c :: label') ++ chars "_len") with
      | false => rfl
      | true =>
        have := startsWith_head (s := strip l0) (a := '.')
          (p := chars "set " ++ (c :: label') ++ chars "_len") (by simpa using hb)
        rw [this] at hhead
        simp only [Option.some.injEq] at hhead
        subst hhead
        exact absurd hcw (by decide)
    have hequ : listStartsWith (strip l0) (chars ".equ " ++ (c :: label') ++ chars "_len") = false := by
      cases hb : listStartsWith (strip l0) (chars ".equ " ++ (c :: label') ++ chars "_len") with
      | false => rfl
      | true =>
        have := startsWith_head (s := strip l0) (a := '.')
          (p := chars "equ " ++ (c :: label') ++ chars "_len") (by simpa using hb)
        rw [this] at hhead
        simp only [Option.some.injEq] at hhead
        subst hhead
        exact absurd hcw (by decide)
    rw [scanOld.eq_def]
    simp only [hset, hequ, Bool.false_eq_true, if_false]
    simp [h0, h1, endEmit]

theorem processLines_copy (label : List Char) (P : List Nat) (isGas : Bool)
    (pre rest : List (List Char))
    (hp : ∀ p ∈ pre, isLabelLine isGas label (strip p) = false) :
    processLines label P isGas (pre ++ rest) = pre ++ processLines label P isGas rest := by
  induction pre with
  | nil => rfl
  | cons p ps ih =>
    have h := hp p (List.mem_cons_self p ps)
    rw [List.cons_append, processLines.eq_def]
    simp only [h, Bool.false_eq_true, if_false]
    rw [ih (fun x hx => hp x (List.mem_cons_of_mem p hx)), List.cons_append]

theorem processLines_hit (label : List Char) (P : List Nat) (isGas : Bool)
    (l : List Char) (rest : List (List Char))
    (h : isLabelLine isGas label (strip l) = true) :
    processLines label P isGas (l :: rest) =
      emitBlock isGas label P ++ (scanOld label isGas rest).1 ++ (scanOld label isGas rest).2 := by
  rw [processLines.eq_def]
  simp [h]

/-! Shape lemmas for the emitted replacement lines, used to evaluate the
regenerated length expressions over the splicer's output. -/

theorem opsOf_getLast_not_ws : ∀ (c : List Nat), c ≠ [] →
    ∀ x, (opsOf c).getLast? = some x → isPyWs x = false
  | [], h, _, _ => absurd rfl h
  | [b], _, x, hx => by
    simp only [opsOf, hexByte, List.getLast?_cons_cons, List.getLast?_singleton,
      Option.some.injEq] at hx
    rw [← hx]
    exact hexDigitChar_not_ws (b % 16)
  | b :: b2 :: rest, _, x, hx => by
    have hexp : opsOf (b :: b2 :: rest) = (hexByte b ++ chars ", ") ++ opsOf (b2 :: rest) := by
      rw [List.append_assoc]
      rfl
    rw [hexp, List.getLast?_append_of_ne_nil _
      (opsOf_ne_nil (b2 :: rest) (fun hn => List.noConfusion hn))] at hx
    exact opsOf_getLast_not_ws (b2 :: rest) (fun hn => List.noConfusion hn) x hx

theorem wordList_head_not_ws {label : List Char} (hne : label ≠ [])
    (hw : label.all isWordChar = true) (t : List Char) :
    ∀ c, (label ++ t).head? = some c → isPyWs c = false := by
  cases label with
  | nil => exact absurd rfl hne
  | cons c1 l1 =>
    intro c hc
    simp only [List.cons_append, List.head?_cons, Option.some.injEq] at hc
    subst hc
    simp only [List.all_cons, Bool.and_eq_true] at hw
    exact wordChar_not_ws hw.1

theorem strip_nasm_emit_line (label : List Char) (hne : label ≠ [])
    (hw : label.all isWordChar = true) (c : List Nat) (hc : c ≠ []) :
    strip (padRight (label ++ [':']) 24 ++ chars "db " ++ opsOf c)
      = padRight (label ++ [':']) 24 ++ chars "db " ++ opsOf c := by
  apply strip_eq_self_of
  · intro d hd
    have he : padRight (label ++ [':']) 24 ++ chars "db " ++ opsOf c
        = label ++ ((([':'] ++ List.replicate (24 - (label ++ [':']).length) ' ') ++ chars "db ") ++ opsOf c) := by
      simp [padRight, List.append_assoc]
    rw [he] at hd
    exact wordList_head_not_ws hne hw _ d hd
  · intro d hd
    rw [List.getLast?_append_of_ne_nil _ (opsOf_ne_nil c hc)] at hd
    exact opsOf_getLast_not_ws c hc d hd

theorem strip_indent_db_line (c : List Nat) (hc : c ≠ []) :
    strip (chars "                        db " ++ opsOf c) = chars "db " ++ opsOf c := by
  have he : chars "                        db " ++ opsOf c
      = chars "                        " ++ (chars "db " ++ opsOf c) := by
    rw [← List.append_assoc]
    rfl
  rw [he]
  apply strip_ws_append
  · decide
  · intro d hd
    have : (chars "db " ++ opsOf c).head? = some 'd' := rfl
    rw [this] at hd
    injection hd with hd
    subst hd
    decide
  · intro d hd
    rw [List.getLast?_append_of_ne_nil _ (opsOf_ne_nil c hc)] at hd
    exact opsOf_getLast_not_ws c hc d hd

theorem strip_gas_byte_line (c : List Nat) (hc : c ≠ []) :
    strip (chars "    .byte " ++ opsOf c) = chars ".byte " ++ opsOf c := by
  have he : chars "    .byte " ++ opsOf c
      = chars "    " ++ (chars ".byte " ++ opsOf c) := by
    rw [← List.append_assoc]
    rfl
  rw [he]
  apply strip_ws_append
  · decide
  · intro d hd
    have : (chars ".byte " ++ opsOf c).head? = some '.' := rfl
    rw [this] at hd
    injection hd with hd
    subst hd
    decide
  · intro d hd
    rw [List.getLast?_append_of_ne_nil _ (opsOf_ne_nil c hc)] at hd
    exact opsOf_getLast_not_ws c hc d hd

theorem wordList_getLast_not_ws {label : List Char} (hne : label ≠ [])
    (hw : label.all isWordChar = true) :
    ∀ c, label.getLast? = some c → isPyWs c = false := by
  intro c hc
  have hm : c ∈ label := by
    cases label with
    | nil => exact absurd rfl hne
    | cons a l => exact List.mem_of_mem_getLast? hc
  have := List.all_eq_true.mp hw c hm
  exact wordChar_not_ws (by simpa using this)

theorem strip_nasm_len_line (label : List Char) (hne : label ≠ [])
    (hw : label.all isWordChar = true) :
    strip (label ++ chars "_len equ $ - " ++ label) = label ++ chars "_len equ $ - " ++ label := by
  apply strip_eq_self_of
  · intro d hd
    rw [List.append_assoc] at hd
    exact wordList_head_not_ws hne hw _ d hd
  · intro d hd
    rw [List.getLast?_append_of_ne_nil _ hne] at hd
    exact wordList_getLast_not_ws hne hw d hd

theorem strip_gas_set_line (label : List Char) (hne : label ≠ [])
    (hw : label.all isWordChar = true) :
    strip (chars "    .set " ++ label ++ chars "_len, . - " ++ label)
      = chars ".set " ++ label ++ chars "_len, . - " ++ label := by
  have he : chars "    .set " ++ label ++ chars "_len, . - " ++ label
      = chars "    " ++ (chars ".set " ++ label ++ chars "_len, . - " ++ label) := by
    simp only [← List.append_assoc]
    rfl
  rw [he]
  apply strip_ws_append
  · decide
  · intro d hd
    have hh : (chars ".set " ++ label ++ chars "_len, . - " ++ label).head? = some '.' := by
      rfl
    rw [hh] at hd
    injection hd with hd
    subst hd
    decide
  · intro d hd
    rw [List.getLast?_append_of_ne_nil _ hne] at hd
    exact wordList_getLast_not_ws hne hw d hd

theorem strip_gas_equ_line (label : List Char) (hne : label ≠ [])
    (hw : label.all isWordChar = true) :
    strip (chars ".equ " ++ label ++ chars "_len, . - " ++ label)
      = chars ".equ " ++ label ++ chars "_len, . - " ++ label := by
  apply strip_eq_self_of
  · intro d hd
    have hh : (chars ".equ " ++ label ++ chars "_len, . - " ++ label).head? = some '.' := by
      rfl
    rw [hh] at hd
    injection hd with hd
    subst hd
    decide
  · intro d hd
    rw [List.getLast?_append_of_ne_nil _ hne] at hd
    exact wordList_getLast_not_ws hne hw d hd

theorem strip_gas_label_line (label : List Char) (hne : label ≠ [])
    (hw : label.all isWordChar = true) :
    strip (label ++ [':']) = label ++ [':'] := by
  apply strip_eq_self_of
  · exact wordList_head_not_ws hne hw [':']
  · intro d hd
    rw [List.getLast?_append_of_ne_nil _ (fun h => List.noConfusion h)] at hd
    injection hd with hd
    subst hd
    decide

theorem db_line_not_len : ∀ (label : List Char), label.all isWordChar = true → label ≠ [] →
    ∀ t, listStartsWith (chars "db " ++ t) (label ++ chars "_len") = false
  | [], _, hne, _ => absurd rfl hne
  | [c1], _, _, t => by
    have e1 : chars "db " ++ t = 'd' :: 'b' :: ' ' :: t := rfl
    have e2 : [c1] ++ chars "_len" = c1 :: '_' :: 'l' :: 'e' :: 'n' :: [] := rfl
    rw [e1, e2]
    simp [listStartsWith]
  | [c1, c2], _, _, t => by
    have e1 : chars "db " ++ t = 'd' :: 'b' :: ' ' :: t := rfl
    have e2 : [c1, c2] ++ chars "_len" = c1 :: c2 :: '_' :: 'l' :: 'e' :: 'n' :: [] := rfl
    rw [e1, e2]
    simp [listStartsWith]
  | c1 :: c2 :: c3 :: l3, hw, _, t => by
    have hc3 : isWordChar c3 = true := by
      simp only [List.all_cons, Bool.and_eq_true] at hw
      exact hw.2.2.1
    have hsp : ¬(' ' = c3) := fun he => absurd (he.symm ▸ hc3) (by decide)
    have e1 : chars "db " ++ t = 'd' :: 'b' :: ' ' :: t := rfl
    have e2 : (c1 :: c2 :: c3 :: l3) ++ chars "_len" = c1 :: c2 :: c3 :: (l3 ++ chars "_len") := rfl
    rw [e1, e2]
    simp [listStartsWith, hsp]

theorem countComma_wordList {label : List Char} (hw : label.all isWordChar = true) :
    label.count ',' = 0 := by
  rw [List.count_eq_zero]
  intro hm
  have := List.all_eq_true.mp hw ',' hm
  exact absurd (by simpa using this) (by decide)

theorem dbCount_nasm_first (label : List Char)
    (hw : label.all isWordChar = true) (c : List Nat) (hc : c ≠ []) :
    dbCount (padRight (label ++ [':']) 24 ++ chars "db " ++ opsOf c) = c.length := by
  unfold dbCount
  have hcontains : containsSub
      (lowerStr (padRight (label ++ [':']) 24 ++ chars "db " ++ opsOf c)) (chars "db") = true := by
    rw [List.append_assoc]
    unfold lowerStr
    rw [List.map_append]
    apply containsSub_append_right
    rw [← lowerStr]
    have e1 : lowerStr (chars "db " ++ opsOf c) = chars "db" ++ (' ' :: lowerStr (opsOf c)) := rfl
    rw [e1]
    exact containsSub_of_startsWith (listStartsWith_refl_append _ _)
  rw [hcontains]
  simp only [if_true]
  rw [List.count_append, List.count_append]
  rw [count_comma_opsOf c hc]
  have hpad : (padRight (label ++ [':']) 24).count ',' = 0 := by
    unfold padRight
    rw [List.count_append, List.count_append]
    rw [countComma_wordList hw]
    have h1 : ([':'] : List Char).count ',' = 0 := by decide
    have h2 : (List.replicate (24 - (label ++ [':']).length) ' ').count ',' = 0 := by
      rw [List.count_eq_zero]
      intro hm
      have := List.eq_of_mem_replicate hm
      exact absurd this (by decide)
    rw [h1, h2]
  have hdb : (chars "db ").count ',' = 0 := by decide
  rw [hpad, hdb]
  have hlen : 0 < c.length := List.length_pos.mpr hc
  omega

theorem dbCount_nasm_cont (c : List Nat) (hc : c ≠ []) :
    dbCount (chars "db " ++ opsOf c) = c.length := by
  unfold dbCount
  have hcontains : containsSub (lowerStr (chars "db " ++ opsOf c)) (chars "db") = true := by
    have e1 : lowerStr (chars "db " ++ opsOf c) = chars "db" ++ (' ' :: lowerStr (opsOf c)) := rfl
    rw [e1]
    exact containsSub_of_startsWith (listStartsWith_refl_append _ _)
  rw [hcontains]
  simp only [if_true]
  rw [List.count_append, count_comma_opsOf c hc]
  have hdb : (chars "db ").count ',' = 0 := by decide
  rw [hdb]
  have hlen : 0 < c.length := List.length_pos.mpr hc
  omega

theorem byteCount_gas_line (c : List Nat) (hc : c ≠ []) :
    byteCount (chars ".byte " ++ opsOf c) = c.length := by
  unfold byteCount
  have hs : listStartsWith (chars ".byte " ++ opsOf c) (chars ".byte") = true := by
    have e1 : chars ".byte " ++ opsOf c = chars ".byte" ++ (' ' :: opsOf c) := rfl
    rw [e1]
    exact listStartsWith_refl_append _ _
  rw [hs]
  simp only [if_true]
  rw [List.count_append, count_comma_opsOf c hc]
  have hb : (chars ".byte ").count ',' = 0 := by decide
  rw [hb]
  have hlen : 0 < c.length := List.length_pos.mpr hc
  omega

theorem nasmCountFrom_cons_skip (label l : List Char) (rest : List (List Char))
    (h : listStartsWith (strip l) (label ++ chars "_len") = false) :
    nasmCountFrom label (l :: rest)
      = (nasmCountFrom label rest).map (· + dbCount (strip l)) := by
  rw [nasmCountFrom]
  simp [h]

theorem nasmCountFrom_cons_stop (label l : List Char) (rest : List (List Char))
    (h : listStartsWith (strip l) (label ++ chars "_len") = true) :
    nasmCountFrom label (l :: rest) = some 0 := by
  rw [nasmCountFrom]
  simp [h]

theorem nasmEvalLen_skip (label : List Char) (pre : List (List Char))
    (hp : ∀ p ∈ pre, listStartsWith (strip p) (label ++ [':']) = false)
    (rest : List (List Char)) :
    nasmEvalLen label (pre ++ rest) = nasmEvalLen label rest := by
  induction pre with
  | nil => rfl
  | cons p ps ih =>
    rw [List.cons_append, nasmEvalLen]
    simp only [hp p (List.mem_cons_self p ps), Bool.false_eq_true, if_false]
    exact ih (fun x hx => hp x (List.mem_cons_of_mem p hx))

theorem gasCountFrom_cons_skip (label l : List Char) (rest : List (List Char))
    (h : gasLenDirective label (strip l) = false) :
    gasCountFrom label (l :: rest)
      = (gasCountFrom label rest).map (· + byteCount (strip l)) := by
  rw [gasCountFrom]
  simp [h]

theorem gasCountFrom_cons_stop (label l : List Char) (rest : List (List Char))
    (h : gasLenDirective label (strip l) = true) :
    gasCountFrom label (l :: rest) = some 0 := by
  rw [gasCountFrom]
  simp [h]

theorem gasEvalLen_skip (label : List Char) (pre : List (List Char))
    (hp : ∀ p ∈ pre, ¬(strip p = label ++ [':']))
    (rest : List (List Char)) :
    gasEvalLen label (pre ++ rest) = gasEvalLen label rest := by
  induction pre with
  | nil => rfl
  | cons p ps ih =>
    rw [List.cons_append, gasEvalLen]
    simp only [hp p (List.mem_cons_self p ps), if_false]
    exact ih (fun x hx => hp x (List.mem_cons_of_mem p hx))

theorem gas_byte_line_not_directive (label : List Char) (c : List Nat) :
    gasLenDirective label (chars ".byte " ++ opsOf c) = false := by
  unfold gasLenDirective
  have e1 : chars ".byte " ++ opsOf c = ['.'] ++ 'b' :: (chars "yte " ++ opsOf c) := rfl
  have hs : listStartsWith (chars ".byte " ++ opsOf c) (chars ".set " ++ label ++ chars "_len") = false := by
    rw [e1]
    have e2 : chars ".set " ++ label ++ chars "_len" = ['.'] ++ 's' :: (chars "et " ++ label ++ chars "_len") := by
      simp only [List.append_assoc]
      rfl
    rw [e2]
    exact startsWith_append_ne ['.'] (by decide) _ _
  have he : listStartsWith (chars ".byte " ++ opsOf c) (chars ".equ " ++ label ++ chars "_len") = false := by
    rw [e1]
    have e2 : chars ".equ " ++ label ++ chars "_len" = ['.'] ++ 'e' :: (chars "qu " ++ label ++ chars "_len") := by
      simp only [List.append_assoc]
      rfl
    rw [e2]
    exact startsWith_append_ne ['.'] (by decide) _ _
  rw [hs, he]
  rfl

theorem nasmCountFrom_cont (label : List Char) (hw : label.all isWordChar = true)
    (hne : label ≠ []) (cs : List (List Nat)) (hcs : ∀ c ∈ cs, c ≠ [])
    (rest : List (List Char)) :
    nasmCountFrom label (cs.map (fun c => chars "                        db " ++ opsOf c) ++ rest)
      = (nasmCountFrom label rest).map (· + (cs.map List.length).sum) := by
  induction cs with
  | nil =>
    simp only [List.map_nil, List.nil_append, List.sum_nil]
    cases nasmCountFrom label rest <;> simp
  | cons c cs' ih =>
    have hc : c ≠ [] := hcs c (List.mem_cons_self c cs')
    rw [List.map_cons, List.cons_append,
      nasmCountFrom_cons_skip label _ _ (by
        rw [strip_indent_db_line c hc]
        exact db_line_not_len label hw hne _),
      ih (fun x hx => hcs x (List.mem_cons_of_mem c hx))]
    rw [strip_indent_db_line c hc, dbCount_nasm_cont c hc]
    cases nasmCountFrom label rest with
    | none => simp
    | some n =>
      simp only [Option.map_some', Option.some.injEq, List.map_cons, List.sum_cons]
      omega

theorem nasm_len_line_starts (label : List Char) :
    listStartsWith (label ++ chars "_len equ $ - " ++ label) (label ++ chars "_len") = true := by
  have e1 : label ++ chars "_len equ $ - " ++ label
      = (label ++ chars "_len") ++ (chars " equ $ - " ++ label) := by
    simp only [List.append_assoc]
    rfl
  rw [e1]
  exact listStartsWith_refl_append _ _

theorem nasm_eval_emit (label : List Char) (hne : label ≠ [])
    (hw : label.all isWordChar = true) (P : List Nat) (hP : P ≠ [])
    (rest : List (List Char)) :
    nasmEvalLen label
        (emitBlock false label P ++ (label ++ chars "_len equ $ - " ++ label) :: rest)
      = some P.length := by
  cases P with
  | nil => exact absurd rfl hP
  | cons b P' =>
    have hch : chunks16 (b :: P') = (b :: P').take 16 :: chunks16 (P'.drop 15) :=
      chunks16_step b P'
    have hc0 : (b :: P').take 16 ≠ [] := by simp
    have hcs : ∀ c ∈ chunks16 (P'.drop 15), c ≠ [] := chunks16_mem_ne_nil (P'.drop 15)
    have hemit : emitBlock false label (b :: P')
        = (padRight (label ++ [':']) 24 ++ chars "db " ++ opsOf ((b :: P').take 16)) ::
          (chunks16 (P'.drop 15)).map
            (fun c => chars "                        db " ++ opsOf c) := by
      unfold emitBlock
      rw [hch]
      simp
    rw [hemit, List.cons_append, nasmEvalLen]
    simp only [strip_nasm_emit_line label hne hw _ hc0]
    have hstart : listStartsWith
        (padRight (label ++ [':']) 24 ++ chars "db " ++ opsOf ((b :: P').take 16))
        (label ++ [':']) = true := by
      have e1 : padRight (label ++ [':']) 24 ++ chars "db " ++ opsOf ((b :: P').take 16)
          = (label ++ [':']) ++ (List.replicate (24 - (label ++ [':']).length) ' '
              ++ chars "db " ++ opsOf ((b :: P').take 16)) := by
        simp [padRight, List.append_assoc]
      rw [e1]
      exact listStartsWith_refl_append _ _
    rw [hstart]
    simp only [if_true]
    rw [nasmCountFrom_cont label hw hne _ hcs _,
      nasmCountFrom_cons_stop label _ _ (by
        rw [strip_nasm_len_line label hne hw]
        exact nasm_len_line_starts label)]
    rw [dbCount_nasm_first label hw _ hc0]
    have hsum := chunks16_sum (b :: P')
    rw [hch] at hsum
    simp only [List.map_cons, List.sum_cons] at hsum
    simp only [Option.map_some', Option.some.injEq]
    omega

theorem gasCountFrom_cont (label : List Char) (cs : List (List Nat))
    (hcs : ∀ c ∈ cs, c ≠ []) (rest : List (List Char)) :
    gasCountFrom label (cs.map (fun c => chars "    .byte " ++ opsOf c) ++ rest)
      = (gasCountFrom label rest).map (· + (cs.map List.length).sum) := by
  induction cs with
  | nil =>
    simp only [List.map_nil, List.nil_append, List.sum_nil]
    cases gasCountFrom label rest <;> simp
  | cons c cs' ih =>
    have hc : c ≠ [] := hcs c (List.mem_cons_self c cs')
    rw [List.map_cons, List.cons_append,
      gasCountFrom_cons_skip label _ _ (by
        rw [strip_gas_byte_line c hc]
        exact gas_byte_line_not_directive label c),
      ih (fun x hx => hcs x (List.mem_cons_of_mem c hx))]
    rw [strip_gas_byte_line c hc, byteCount_gas_line c hc]
    cases gasCountFrom label rest with
    | none => simp
    | some n =>
      simp only [Option.map_some', Option.some.injEq, List.map_cons, List.sum_cons]
      omega

theorem gas_set_line_directive (label : List Char) :
    gasLenDirective label (chars ".set " ++ label ++ chars "_len, . - " ++ label) = true := by
  unfold gasLenDirective
  have e1 : chars ".set " ++ label ++ chars "_len, . - " ++ label
      = (chars ".set " ++ label ++ chars "_len") ++ (chars ", . - " ++ label) := by
    simp only [List.append_assoc]
    rfl
  rw [e1, listStartsWith_refl_append]
  rfl

theorem gas_equ_line_directive (label : List Char) :
    gasLenDirective label (chars ".equ " ++ label ++ chars "_len, . - " ++ label) = true := by
  unfold gasLenDirective
  have e1 : chars ".equ " ++ label ++ chars "_len, . - " ++ label
      = (chars ".equ " ++ label ++ chars "_len") ++ (chars ", . - " ++ label) := by
    simp only [List.append_assoc]
    rfl
  rw [e1]
  have h2 : listStartsWith ((chars ".equ " ++ label ++ chars "_len") ++ (chars ", . - " ++ label))
      (chars ".equ " ++ label ++ chars "_len") = true := listStartsWith_refl_append _ _
  rw [h2]
  simp

theorem gas_eval_emit (label : List Char) (hne : label ≠ [])
    (hw : label.all isWordChar = true) (P : List Nat) (r : List Char)
    (hr : r = chars "    .set " ++ label ++ chars "_len, . - " ++ label ∨
          r = chars ".equ " ++ label ++ chars "_len, . - " ++ label)
    (rest : List (List Char)) :
    gasEvalLen label (emitBlock true label P ++ r :: rest) = some P.length := by
  have hemit : emitBlock true label P
      = (label ++ [':']) :: (chunks16 P).map (fun c => chars "    .byte " ++ opsOf c) := by
    unfold emitBlock
    simp
  rw [hemit, List.cons_append, gasEvalLen]
  rw [strip_gas_label_line label hne hw]
  simp only [if_pos rfl]
  have hdir : gasLenDirective label (strip r) = true := by
    rcases hr with hr | hr
    · rw [hr, strip_gas_set_line label hne hw]
      exact gas_set_line_directive label
    · rw [hr, strip_gas_equ_line label hne hw]
      exact gas_equ_line_directive label
  rw [gasCountFrom_cont label _ (chunks16_mem_ne_nil P) _,
    gasCountFrom_cons_stop label _ _ hdir]
  have hsum := chunks16_sum P
  simp only [Option.map_some', Option.some.injEq]
  rw [Nat.zero_add, hsum]
  simp

/-! Claim theorems. -/

/-- Claim C10: when the target label does not occur as a label-definition
line anywhere in the source text, `replace_label_content` returns the text
unchanged byte for byte. -/
theorem c10_no_label_identity (content label : List Char) (newBytes : List Nat) (isGas : Bool)
    (h : ∀ l ∈ splitLines content, isLabelLine isGas label (strip l) = false) :
    replaceLabelContent content label newBytes isGas = content := by
  unfold replaceLabelContent
  have hp := processLines_copy label newBytes isGas (splitLines content) [] h
  simp only [List.append_nil] at hp
  have hpl : processLines label newBytes isGas [] = [] := rfl
  rw [hp, hpl, List.append_nil]
  exact joinWithElem_splitOnElem '\n' content

/-- Witness for C10 at a concrete source text without the target label. -/
theorem c10_no_label_identity_witness :
    replaceLabelContent (chars "foo:\nbar") (chars "help") [7] false = chars "foo:\nbar" :=
  c10_no_label_identity (chars "foo:\nbar") (chars "help") [7] false (by decide)

/-- Claim C1 counterexample: in the NASM dialect an unrelated label
definition that carries a `db` directive on the same line
(`other: db 0x41`) is consumed by the scan, so a line of the subsequent,
unrelated block is removed from the returned text even though no length
directive for the target label intervened. -/
theorem c1_termination_cex :
    replaceLabelContent (chars "help:\ndb 0x00\nother: db 0x41\nother_len equ $ - other")
        (chars "help") [66] false
      = chars "help:                   db 0x42\nother_len equ $ - other" ∧
    containsSub (chars "help:\ndb 0x00\nother: db 0x41\nother_len equ $ - other")
        (chars "other: db 0x41") = true ∧
    containsSub (chars "help:                   db 0x42\nother_len equ $ - other")
        (chars "other: db 0x41") = false := by
  refine ⟨by decide, by decide, by decide⟩

/-- Claim C1 (amended): when the target label's old block is immediately
followed — with no intervening terminator — by an unrelated
label-definition line that carries no byte-emission directive on the same
line and does not share the target label's length or end symbol as a
prefix, scanning stops before consuming it: that line and everything
after it appear verbatim in the returned text. -/
theorem c1_termination_amended (isGas : Bool) (label : List Char) (P : List Nat)
    (pre block rest : List (List Char)) (labelLine L : List Char)
    (hpre : ∀ p ∈ pre, isLabelLine isGas label (strip p) = false)
    (hll : isLabelLine isGas label (strip labelLine) = true)
    (hblock : ∀ b ∈ block, consumedByScan isGas label (strip b) = true)
    (hL : unrelatedLabelStop isGas label (strip L) = true)
    (hnl : ∀ l ∈ pre ++ labelLine :: (block ++ L :: rest), '\n' ∉ l) :
    replaceLabelContent (joinLines (pre ++ labelLine :: (block ++ L :: rest))) label P isGas
      = joinLines (pre ++ (emitBlock isGas label P ++ L :: rest)) := by
  simp only [replaceLabelContent, splitLines, joinLines]
  rw [splitOnElem_joinWithElem '\n' _ (by simp) hnl]
  rw [processLines_copy label P isGas pre _ hpre]
  rw [processLines_hit label P isGas labelLine _ hll]
  rw [scanOld_skip_block label isGas block hblock (L :: rest)]
  rw [scanOld_stop label L rest isGas hL]
  simp [joinLines]

/-- Witness for the amended C1 at a concrete NASM source. -/
theorem c1_termination_witness :
    replaceLabelContent
        (joinLines ([chars "; x"] ++ chars "help:" :: ([chars "db 0x00"] ++ chars "other:" :: [chars "tail"])))
        (chars "help") [66] false
      = joinLines ([chars "; x"] ++ (emitBlock false (chars "help") [66] ++ chars "other:" :: [chars "tail"])) :=
  c1_termination_amended false (chars "help") [66] [chars "; x"] [chars "db 0x00"]
    [chars "tail"] (chars "help:") (chars "other:")
    (by decide) (by decide) (by decide) (by decide) (by decide)

/-- Claim C3 counterexample: in the NASM dialect the sentinel end-label
line (`help_end:`) is not re-emitted — the output contains only the
regenerated length directive. -/
theorem c3_end_label_cex :
    replaceLabelContent (chars "help:\ndb 0x00\nhelp_end:\nhelp_len equ $ - help\nrest")
        (chars "help") [65] false
      = chars "help:                   db 0x41\nhelp_len equ $ - help\nrest" ∧
    containsSub (chars "help:\ndb 0x00\nhelp_end:\nhelp_len equ $ - help\nrest")
        (chars "help_end") = true ∧
    containsSub (chars "help:                   db 0x41\nhelp_len equ $ - help\nrest")
        (chars "help_end") = false := by
  refine ⟨by decide, by decide, by decide⟩

/-- Claim C3 (amended): when the old block terminates with a sentinel end
label immediately followed by a line containing the length-symbol suffix,
the GAS dialect re-emits both the end-label line and the old length line
verbatim, while the NASM dialect drops the end-label line and emits only
a regenerated length directive (`endEmit` states both cases). -/
theorem c3_end_label_amended (isGas : Bool) (label : List Char) (P : List Nat)
    (pre block rest : List (List Char)) (labelLine endL lenL : List Char)
    (hlab : label ≠ []) (hw : label.all isWordChar = true)
    (hpre : ∀ p ∈ pre, isLabelLine isGas label (strip p) = false)
    (hll : isLabelLine isGas label (strip labelLine) = true)
    (hblock : ∀ b ∈ block, consumedByScan isGas label (strip b) = true)
    (hend : endLabelForm isGas label (strip endL) = true)
    (hlen : containsSub (strip lenL) (chars "_len") = true)
    (hnl : ∀ l ∈ pre ++ labelLine :: (block ++ endL :: lenL :: rest), '\n' ∉ l) :
    replaceLabelContent (joinLines (pre ++ labelLine :: (block ++ endL :: lenL :: rest))) label P isGas
      = joinLines (pre ++ (emitBlock isGas label P ++ (endEmit isGas label lenL ++ rest))) := by
  simp only [replaceLabelContent, splitLines, joinLines]
  rw [splitOnElem_joinWithElem '\n' _ (by simp) hnl]
  rw [processLines_copy label P isGas pre _ hpre]
  rw [processLines_hit label P isGas labelLine _ hll]
  rw [scanOld_skip_block label isGas block hblock (endL :: lenL :: rest)]
  rw [scanOld_end label endL lenL rest isGas hlab hw hend hlen]
  simp [joinLines]

/-- Witness for the amended C3 at a concrete GAS source: both the end
label and the old length line are re-emitted. -/
theorem c3_end_label_witness :
    replaceLabelContent
        (joinLines ([] ++ chars "x:" :: ([chars "    .byte 0x01"] ++ chars "x_end:" :: chars "  .set x_len, . - x" :: [chars "rest"])))
        (chars "x") [65, 66] true
      = joinLines ([] ++ (emitBlock true (chars "x") [65, 66] ++
          (endEmit true (chars "x") (chars "  .set x_len, . - x") ++ [chars "rest"]))) :=
  c3_end_label_amended true (chars "x") [65, 66] [] [chars "    .byte 0x01"] [chars "rest"]
    (chars "x:") (chars "x_end:") (chars "  .set x_len, . - x")
    (by decide) (by decide) (by decide) (by decide) (by decide) (by decide) (by decide) (by decide)

/-- Claim C2 counterexample: splicing the empty payload into a NASM block
whose old content ends with a length-computation directive drops the
label-definition line entirely, so the regenerated directive's expression
`$ - help` no longer evaluates (the modelled NASM evaluation is `none`,
not `some 0` = the byte length of the payload). -/
theorem c2_length_cex :
    replaceLabelContent (chars "help:\n    db 0x31\nhelp_len equ $ - help\ntail")
        (chars "help") [] false
      = chars "help_len equ $ - help\ntail" ∧
    nasmEvalLen (chars "help") (splitLines (chars "help_len equ $ - help\ntail")) = none := by
  refine ⟨by decide, by decide⟩

/-- Claim C2 (amended): for every nonempty payload spliced into a block
whose old content ends directly with a length-computation directive for
the target label, the directive in the output is the regenerated
canonical form (a function of the label alone, independent of the old
directive's text) and the modelled toolchain evaluation of the length
expression over the output yields exactly the byte length of the
payload. -/
theorem c2_length_amended (isGas : Bool) (label : List Char) (P : List Nat)
    (pre block rest : List (List Char)) (labelLine oldLen r : List Char)
    (hlab : label ≠ []) (hw : label.all isWordChar = true) (hP : P ≠ [])
    (hpre : ∀ p ∈ pre, isLabelLine isGas label (strip p) = false)
    (hll : isLabelLine isGas label (strip labelLine) = true)
    (hblock : ∀ b ∈ block, consumedByScan isGas label (strip b) = true)
    (hold : regenFor isGas label (strip oldLen) = some r)
    (hnl : ∀ l ∈ pre ++ labelLine :: (block ++ oldLen :: rest), '\n' ∉ l) :
    replaceLabelContent (joinLines (pre ++ labelLine :: (block ++ oldLen :: rest))) label P isGas
      = joinLines (pre ++ (emitBlock isGas label P ++ r :: rest)) ∧
    evalLenDialect isGas label (pre ++ (emitBlock isGas label P ++ r :: rest))
      = some P.length := by
  constructor
  · simp only [replaceLabelContent, splitLines, joinLines]
    rw [splitOnElem_joinWithElem '\n' _ (by simp) hnl]
    rw [processLines_copy label P isGas pre _ hpre]
    rw [processLines_hit label P isGas labelLine _ hll]
    rw [scanOld_skip_block label isGas block hblock (oldLen :: rest)]
    rw [scanOld_len label oldLen r rest isGas hold]
    simp
  · cases isGas with
    | false =>
      have hr : r = label ++ chars "_len equ $ - " ++ label := by
        simp only [regenFor, Bool.false_eq_true, if_false] at hold
        split at hold
        · exact (Option.some.injEq _ _ ▸ hold).symm
        · exact Option.noConfusion hold
      subst hr
      unfold evalLenDialect
      simp only [Bool.false_eq_true, if_false]
      rw [nasmEvalLen_skip label pre (fun p hp => by
        have := hpre p hp
        unfold isLabelLine at this
        simp only [Bool.false_eq_true, if_false, Bool.or_eq_false_iff] at this
        exact this.1) _]
      exact nasm_eval_emit label hlab hw P hP rest
    | true =>
      have hr : r = chars "    .set " ++ label ++ chars "_len, . - " ++ label ∨
          r = chars ".equ " ++ label ++ chars "_len, . - " ++ label := by
        simp only [regenFor, if_true] at hold
        split at hold
        · exact Or.inl (Option.some.injEq _ _ ▸ hold).symm
        · split at hold
          · exact Or.inr (Option.some.injEq _ _ ▸ hold).symm
          · exact Option.noConfusion hold
      unfold evalLenDialect
      simp only [if_true]
      rw [gasEvalLen_skip label pre (fun p hp => by
        have := hpre p hp
        unfold isLabelLine at this
        simp only [if_true, decide_eq_false_iff_not] at this
        exact this) _]
      exact gas_eval_emit label hlab hw P r hr rest

/-- Witness for the amended C2 at a concrete NASM source and a three-byte
payload. -/
theorem c2_length_witness :
    replaceLabelContent
        (joinLines ([] ++ chars "help:" :: ([chars "db 0x00"] ++ chars "help_len equ $ - help" :: [chars "tail"])))
        (chars "help") [1, 2, 3] false
      = joinLines ([] ++ (emitBlock false (chars "help") [1, 2, 3] ++
          (chars "help_len equ $ - help") :: [chars "tail"])) ∧
    evalLenDialect false (chars "help")
        ([] ++ (emitBlock false (chars "help") [1, 2, 3] ++
          (chars "help_len equ $ - help") :: [chars "tail"]))
      = some ([1, 2, 3] : List Nat).length :=
  c2_length_amended false (chars "help") [1, 2, 3] [] [chars "db 0x00"] [chars "tail"]
    (chars "help:") (chars "help_len equ $ - help") (chars "help_len equ $ - help")
    (by decide) (by decide) (by decide) (by decide) (by decide) (by decide) (by decide) (by decide)

/-- Claim C4 (code bug): splicing a zero-length payload through
`replace_label_content` into a NASM block does not produce the documented
`db 0` block — it emits nothing at all and even drops the
label-definition line — while the sibling helper `bytes_to_nasm_db`
renders its empty-data branch with a misapplied format that defines the
bare symbol `_len` instead of `help_len`; only the GAS helper
`bytes_to_gas_directives` matches the specified behaviour. -/
theorem c4_zero_payload_bug :
    replaceLabelContent (chars "help:\n    db 0x41\nhelp_len equ $ - help\nrest")
        (chars "help") [] false
      = chars "help_len equ $ - help\nrest" ∧
    containsSub (chars "help_len equ $ - help\nrest") (chars "help:") = false ∧
    bytesToNasmDb [] (chars "help") = chars "help:                   db 0\n_len equ 0" ∧
    bytesToGasDirectives [] (chars "help")
      = chars "help:\n    .byte 0\n    .set help_len, 0" := by
  refine ⟨by decide, by decide, by decide, by decide⟩

theorem classifyGo_spec (ls : List (List Char)) : ∀ (h v : Option (List Char)),
    classifyGo h v ls
      = (Option.or h (ls.find? (fun n => helpCond (lowerStr n))),
         Option.or v (ls.find? (fun n => !helpCond (lowerStr n) && versionCond (lowerStr n)))) := by
  induction ls with
  | nil =>
    intro h v
    simp [classifyGo]
  | cons n ns ih =>
    intro h v
    rw [classifyGo]
    by_cases hh : helpCond (lowerStr n) = true
    · simp only [hh, if_true]
      rw [ih]
      have hf1 : List.find? (fun m => helpCond (lowerStr m)) (n :: ns)
          = some n := List.find?_cons_of_pos ns hh
      have hf2 : List.find? (fun m => !helpCond (lowerStr m) && versionCond (lowerStr m)) (n :: ns)
          = List.find? (fun m => !helpCond (lowerStr m) && versionCond (lowerStr m)) ns :=
        List.find?_cons_of_neg ns (by simp [hh])
      rw [hf1, hf2]
      cases h <;> simp
    · have hh' : helpCond (lowerStr n) = false := by
        cases hb : helpCond (lowerStr n) with
        | false => rfl
        | true => exact absurd hb hh
      simp only [hh', Bool.false_eq_true, if_false]
      have hf1 : List.find? (fun m => helpCond (lowerStr m)) (n :: ns)
          = List.find? (fun m => helpCond (lowerStr m)) ns :=
        List.find?_cons_of_neg ns hh
      by_cases hv : versionCond (lowerStr n) = true
      · simp only [hv, if_true]
        rw [ih]
        have hf2 : List.find? (fun m => !helpCond (lowerStr m) && versionCond (lowerStr m)) (n :: ns)
            = some n := List.find?_cons_of_pos ns (by simp [hh', hv])
        rw [hf1, hf2]
        cases v <;> simp
      · have hv' : versionCond (lowerStr n) = false := by
          cases hb : versionCond (lowerStr n) with
          | false => rfl
          | true => exact absurd hb hv
        simp only [hv', Bool.false_eq_true, if_false]
        rw [ih]
        have hf2 : List.find? (fun m => !helpCond (lowerStr m) && versionCond (lowerStr m)) (n :: ns)
            = List.find? (fun m => !helpCond (lowerStr m) && versionCond (lowerStr m)) ns :=
          List.find?_cons_of_neg ns (by simp [hv'])
        rw [hf1, hf2]

/-- Claim C7 counterexample: the label `try_version` contains the
cross-reference exclusion substring `try`, so under the claimed symmetric
rule it must not be classified as a version label — yet
`parse_data_section` classifies it as the version label, because the
code's version test omits `try` from its exclusion set. -/
theorem c7_symmetry_cex :
    parseDataSection (chars "; @@DATA_START@@\ntry_version:\n; @@DATA_END@@") false
      = ParseResult.labels none (some (chars "try_version")) ∧
    specSymmetricVersionPred (lowerStr (chars "try_version")) = false := by
  refine ⟨by decide, by decide⟩

/-- Claim C7 (amended): a label in the marker-delimited section is
classified as the version label exactly when it is the first label whose
lowercased name contains `version`, does not satisfy the help test (the
help branch has priority), and contains none of the exclusion substrings
`flag`, `opt`, `dash`, `_len`, `_end` — an exclusion set that, unlike the
help test, omits the cross-reference substring `try`; first match per
class wins. -/
theorem c7_classification_amended :
    (∀ ls : List (List Char),
      classifyLabels ls
        = (ls.find? (fun m => specHelpPred (lowerStr m)),
           ls.find? (fun m => !specHelpPred (lowerStr m) && specVersionPredNoTry (lowerStr m)))) ∧
    (∀ (content : List Char) (isGas : Bool) (sec : List Char),
      sectionSlice content isGas = Sum.inr sec →
      parseDataSection content isGas
        = ParseResult.labels
            ((extractLabels isGas sec).find? (fun m => specHelpPred (lowerStr m)))
            ((extractLabels isGas sec).find?
              (fun m => !specHelpPred (lowerStr m) && specVersionPredNoTry (lowerStr m)))) := by
  have hbase : ∀ ls : List (List Char),
      classifyLabels ls
        = (ls.find? (fun m => specHelpPred (lowerStr m)),
           ls.find? (fun m => !specHelpPred (lowerStr m) && specVersionPredNoTry (lowerStr m))) := by
    intro ls
    have h := classifyGo_spec ls none none
    unfold classifyLabels
    rw [h]
    rfl
  refine ⟨hbase, ?_⟩
  intro content isGas sec hs
  unfold parseDataSection
  rw [hs]
  simp only []
  rw [hbase]

/-- Witness for the amended C7 at a concrete NASM data section holding a
help label and a version label. -/
theorem c7_classification_witness :
    parseDataSection (chars "; @@DATA_START@@\nmy_help:\nmy_version:\n; @@DATA_END@@") false
      = ParseResult.labels (some (chars "my_help")) (some (chars "my_version")) := by
  have h := c7_classification_amended.2
    (chars "; @@DATA_START@@\nmy_help:\nmy_version:\n; @@DATA_END@@") false
    (chars "my_help:\nmy_version:\n") (by decide)
  rw [h]
  decide

/-- Claim C6 counterexample: when the help probe of the reference binary
times out, `detect_tool_data` does not return None — it returns a data
dict whose help artifact is the synthetic timeout diagnostic (programme
path normalized to the tool name), contradicting both the claimed
degradation to no data and the claim that no timeout text is ever
captured as an artifact. -/
theorem c6_timeout_cex :
    detectToolData
        (fun args => if args = [chars "/usr/bin/true", chars "--help"] then ProcOutcome.timedOut
          else ProcOutcome.completed (encode (chars "ok")) [] 0)
        (fun n => if n = chars "true" then some (chars "/usr/bin/true") else none)
        (chars "true")
        { ttype := BuildType.nasmUnified, source := [] }
      = some { help := encode (chars "true: timed out"), version := encode (chars "ok"),
               errUnrec := [], errInval := [], errSuffix := [] } ∧
    some { help := encode (chars "true: timed out"), version := encode (chars "ok"),
           errUnrec := [], errInval := [], errSuffix := [] } ≠ (none : Option DetectData) := by
  refine ⟨by decide, by decide⟩

/-- Claim C6 (amended): a timeout while probing is non-fatal and
`detect_tool_data` still returns a data dict (None is returned only when
the reference binary is absent); a timeout during the help probe is
captured as the help artifact in the form of the synthetic
`<binary>: timed out` stderr text, path-normalized; a timeout during the
long-option error probe leaves the error-template artifacts empty
whenever the synthetic probe string does not occur in the timeout
diagnostic. -/
theorem c6_timeout_amended (env : ProcEnv) (findBin : List Char → Option (List Char))
    (toolName : List Char) (cfg : ToolConfig) (bin : List Char)
    (hfind : findBin (cfg.gnuBin.getD toolName) = some bin)
    (htimeout : env [bin, cfg.helpFlag.getD (chars "--help")] = ProcOutcome.timedOut) :
    (detectToolData env findBin toolName cfg).isSome = true ∧
    (detectToolData env findBin toolName cfg).map DetectData.help
      = some (replaceSub (encode (bin ++ chars ": timed out")) (encode bin)
          (encode (cfg.gnuBin.getD toolName))) := by
  have hcap : capture env [bin, cfg.helpFlag.getD (chars "--help")]
      = ([], encode (bin ++ chars ": timed out"), 124) := by
    unfold capture
    rw [htimeout]
    rfl
  unfold detectToolData
  simp only []
  rw [hfind]
  simp only []
  rw [hcap]
  exact ⟨rfl, rfl⟩

/-- Witness for the amended C6 at a concrete environment where the help
probe times out. -/
theorem c6_timeout_witness :
    ((detectToolData
        (fun args => if args = [chars "/usr/bin/echo", chars "--help"] then ProcOutcome.timedOut
          else ProcOutcome.completed (encode (chars "v1")) [] 0)
        (fun _ => some (chars "/usr/bin/echo"))
        (chars "echo")
        { ttype := BuildType.nasmUnified, source := [] }).isSome = true) ∧
    ((detectToolData
        (fun args => if args = [chars "/usr/bin/echo", chars "--help"] then ProcOutcome.timedOut
          else ProcOutcome.completed (encode (chars "v1")) [] 0)
        (fun _ => some (chars "/usr/bin/echo"))
        (chars "echo")
        { ttype := BuildType.nasmUnified, source := [] }).map DetectData.help
      = some (replaceSub (encode (chars "/usr/bin/echo" ++ chars ": timed out"))
          (encode (chars "/usr/bin/echo")) (encode (chars "echo")))) :=
  c6_timeout_amended
    (fun args => if args = [chars "/usr/bin/echo", chars "--help"] then ProcOutcome.timedOut
      else ProcOutcome.completed (encode (chars "v1")) [] 0)
    (fun _ => some (chars "/usr/bin/echo"))
    (chars "echo")
    { ttype := BuildType.nasmUnified, source := [] }
    (chars "/usr/bin/echo")
    (by decide) (by decide)

theorem mainGo_ok_extend (o : Oracles) (pre : List (List Char)) :
    ∀ (st : St) (okc failc : Nat) (st1 : St) (okc1 failc1 : Nat) (t : List Char)
      (post : List (List Char)) (e : St × ExitKind),
    mainGo o pre st okc failc = Except.ok (st1, okc1, failc1) →
    processOne o t st1 = Except.error e →
    mainGo o (pre ++ t :: post) st okc failc = Except.error e := by
  induction pre with
  | nil =>
    intro st okc failc st1 okc1 failc1 t post e h1 h2
    rw [mainGo] at h1
    simp only [Except.ok.injEq, Prod.mk.injEq] at h1
    obtain ⟨he1, he2, he3⟩ := h1
    subst he1
    rw [List.nil_append, mainGo, h2]
  | cons p ps ih =>
    intro st okc failc st1 okc1 failc1 t post e h1 h2
    rw [mainGo] at h1
    cases hp : processOne o p st with
    | error e' =>
      rw [hp] at h1
      exact Except.noConfusion h1
    | ok r =>
      rw [hp] at h1
      rw [List.cons_append, mainGo, hp]
      simp only []
      exact ih r.1 _ _ st1 okc1 failc1 t post e h1 h2

/-- Claim C5 counterexample: in a `--all`-style batch under an
environment where the assembler invocation of the first tool (`arch`)
exits non-zero with diagnostic `undefined symbol`, the diagnostic is
printed verbatim and the process exits 1 — but the batch does not
continue: no subsequent tool is started (the only command ever issued is
the failing `as` call, and no later tool header is printed), because
`run_cmd` raises SystemExit which `main` never catches. -/
theorem c5_batch_cex :
    mainAll oraclesAsFails = (1, stArchFailed) ∧
    chars "undefined symbol" ∈ stArchFailed.log ∧
    chars "=== base64 ===" ∉ stArchFailed.log ∧
    stArchFailed.trace = [[chars "as", chars "--64", chars "assembly/arch/farch_unified.s",
      chars "-o", chars "/tmp/d/output.o"]] := by
  refine ⟨rfl, by decide, by decide, by decide⟩

/-- Claim C5 (amended): when an assembler or linker invocation for one
tool exits non-zero, that tool's diagnostic output is printed and the
SystemExit raised by `run_cmd` propagates uncaught through `main`: the
whole batch run terminates immediately with that tool's failure state and
a non-zero exit status, and the tools after the failing one are never
processed — the run's outcome is the same whatever comes after the
failing tool. -/
theorem c5_batch_abort_amended (o : Oracles) (pre : List (List Char)) (t : List Char)
    (post : List (List Char)) (st1 : St) (okc1 failc1 : Nat) (st2 : St) (k : ExitKind)
    (h1 : mainGo o pre stInit 0 0 = Except.ok (st1, okc1, failc1))
    (h2 : processOne o t st1 = Except.error (st2, k)) :
    mainAllOver o (pre ++ t :: post) = (exitOf k, st2) ∧
    mainAllOver o (pre ++ [t]) = (exitOf k, st2) := by
  have hmain := mainGo_ok_extend o pre stInit 0 0 st1 okc1 failc1 t post (st2, k) h1 h2
  have hmain2 := mainGo_ok_extend o pre stInit 0 0 st1 okc1 failc1 t [] (st2, k) h1 h2
  unfold mainAllOver
  rw [hmain, hmain2]
  exact ⟨rfl, rfl⟩

/-- Witness for the amended C5: the concrete failing batch aborts with
exit status 1 in the failure state, independently of the tools queued
after the failing one. -/
theorem c5_batch_abort_witness :
    mainAllOver oraclesAsFails ([] ++ chars "arch" :: [chars "base64"]) = (1, stArchFailed) ∧
    mainAllOver oraclesAsFails ([] ++ [chars "arch"]) = (1, stArchFailed) :=
  c5_batch_abort_amended oraclesAsFails [] (chars "arch") [chars "base64"]
    stInit 0 0 stArchFailed (ExitKind.systemExit 1) rfl rfl

theorem runCmdTool_frame (env : BuildEnv) (st : St) (args : List (List Char)) :
    runCmdTool env st args = Except.ok { st with trace := st.trace ++ [args] } ∨
    (∃ s, runCmdTool env st args = Except.error (s, ExitKind.systemExit 1) ∧
      s.fs = st.fs ∧ s.writes = st.writes) := by
  unfold runCmdTool
  simp only []
  split
  · right
    refine ⟨_, rfl, ?_, ?_⟩
    · split <;> rfl
    · split <;> rfl
  · left
    rfl

theorem runCmdYes_frame (env : BuildEnv) (st : St) (args : List (List Char)) :
    runCmdYes env st args = Except.ok { st with trace := st.trace ++ [args] } ∨
    (∃ s, runCmdYes env st args = Except.error (s, ExitKind.systemExit 1) ∧
      s.fs = st.fs ∧ s.writes = st.writes) := by
  unfold runCmdYes
  simp only []
  split
  · right
    refine ⟨_, rfl, ?_, ?_⟩
    · split <;> rfl
    · split <;> rfl
  · left
    rfl

theorem buildNasmFlat_state (env : BuildEnv) (st : St) (src out : List Char)
    (data : Option DetectData) (hs : Bool) (tmp : List Char) (ch : Bool) :
    ∃ extra : List (List Char),
      (finalStOf (buildNasmFlat env st src out data hs tmp ch)).writes = st.writes ++ extra ∧
      (data.isSome = true →
        extra = [tmp] ∧ (finalStOf (buildNasmFlat env st src out data hs tmp ch)).fs tmp = none) ∧
      (data.isNone = true →
        extra = [] ∧ (finalStOf (buildNasmFlat env st src out data hs tmp ch)).fs = st.fs) ∧
      (∀ q, q ≠ tmp → (finalStOf (buildNasmFlat env st src out data hs tmp ch)).fs q = st.fs q) := by
  cases data with
  | none =>
    unfold buildNasmFlat
    simp only []
    rcases runCmdTool_frame env st [chars "nasm", chars "-f", chars "bin", src, chars "-o", out]
      with hok | ⟨s, herr, hfs, hw⟩
    · rw [hok]
      cases ch with
      | true =>
        refine ⟨[], by simp [finalStOf], by simp, fun _ => ⟨rfl, rfl⟩, fun q _ => rfl⟩
      | false =>
        refine ⟨[], by simp [finalStOf, stLog], by simp, fun _ => ⟨rfl, rfl⟩, fun q _ => rfl⟩
    · rw [herr]
      refine ⟨[], ?_, by simp, fun _ => ⟨rfl, ?_⟩, fun q _ => ?_⟩
      · simp [finalStOf, hw]
      · funext q
        exact congrFun hfs q
      · exact congrFun hfs q
  | some d =>
    unfold buildNasmFlat
    simp only []
    rcases runCmdTool_frame env (stWrite st tmp (patchSourceContent ((st.fs src).getD []) d hs false))
        [chars "nasm", chars "-f", chars "bin", tmp, chars "-o", out]
      with hok | ⟨s, herr, hfs, hw⟩
    · rw [hok]
      cases ch with
      | true =>
        refine ⟨[tmp], ?_, fun _ => ⟨rfl, ?_⟩, by simp, fun q hq => ?_⟩
        · simp [finalStOf, stUnlink, stWrite, stLog]
        · simp [finalStOf, stUnlink, stWrite, stLog]
        · simp [finalStOf, stUnlink, stWrite, stLog, hq]
      | false =>
        refine ⟨[tmp], ?_, fun _ => ⟨rfl, ?_⟩, by simp, fun q hq => ?_⟩
        · simp [finalStOf, stUnlink, stWrite, stLog]
        · simp [finalStOf, stUnlink, stWrite, stLog]
        · simp [finalStOf, stUnlink, stWrite, stLog, hq]
    · rw [herr]
      refine ⟨[tmp], ?_, fun _ => ⟨rfl, ?_⟩, by simp, fun q hq => ?_⟩
      · simp [finalStOf, stUnlink, stWrite, hfs, hw]
      · simp [finalStOf, stUnlink, stWrite, hfs]
      · simp [finalStOf, stUnlink, stWrite, hfs, hq]

theorem buildGas_state (env : BuildEnv) (st : St) (src out : List Char)
    (data : Option DetectData) (hs : Bool) (tmp tmpd : List Char) (ch : Bool) :
    ∃ extra : List (List Char),
      (finalStOf (buildGas env st src out data hs tmp tmpd ch)).writes = st.writes ++ extra ∧
      (data.isSome = true →
        extra = [tmp] ∧ (finalStOf (buildGas env st src out data hs tmp tmpd ch)).fs tmp = none) ∧
      (data.isNone = true →
        extra = [] ∧ (finalStOf (buildGas env st src out data hs tmp tmpd ch)).fs = st.fs) ∧
      (∀ q, q ≠ tmp → (finalStOf (buildGas env st src out data hs tmp tmpd ch)).fs q = st.fs q) := by
  cases data with
  | none =>
    unfold buildGas
    simp only []
    rcases runCmdTool_frame env st
        [chars "as", chars "--64", src, chars "-o", tmpd ++ chars "/output.o"]
      with hok | ⟨s, herr, hfs, hw⟩
    · rw [hok]
      simp only []
      rcases runCmdTool_frame env { st with trace := st.trace ++
          [[chars "as", chars "--64", src, chars "-o", tmpd ++ chars "/output.o"]] }
          [chars "ld", chars "-o", out, tmpd ++ chars "/output.o"]
        with hok2 | ⟨s2, herr2, hfs2, hw2⟩
      · rw [hok2]
        cases ch with
        | true =>
          refine ⟨[], by simp [finalStOf], by simp, fun _ => ⟨rfl, rfl⟩, fun q _ => rfl⟩
        | false =>
          refine ⟨[], by simp [finalStOf, stLog], by simp, fun _ => ⟨rfl, rfl⟩, fun q _ => rfl⟩
      · rw [herr2]
        refine ⟨[], ?_, by simp, fun _ => ⟨rfl, ?_⟩, fun q _ => ?_⟩
        · simp [finalStOf, hw2]
        · funext q
          exact congrFun hfs2 q
        · exact congrFun hfs2 q
    · rw [herr]
      refine ⟨[], ?_, by simp, fun _ => ⟨rfl, ?_⟩, fun q _ => ?_⟩
      · simp [finalStOf, hw]
      · funext q
        exact congrFun hfs q
      · exact congrFun hfs q
  | some d =>
    unfold buildGas
    simp only []
    rcases runCmdTool_frame env (stWrite st tmp (patchSourceContent ((st.fs src).getD []) d hs true))
        [chars "as", chars "--64", tmp, chars "-o", tmpd ++ chars "/output.o"]
      with hok | ⟨s, herr, hfs, hw⟩
    · rw [hok]
      simp only []
      rcases runCmdTool_frame env
          { stWrite st tmp (patchSourceContent ((st.fs src).getD []) d hs true) with
            trace := (stWrite st tmp (patchSourceContent ((st.fs src).getD []) d hs true)).trace ++
              [[chars "as", chars "--64", tmp, chars "-o", tmpd ++ chars "/output.o"]] }
          [chars "ld", chars "-o", out, tmpd ++ chars "/output.o"]
        with hok2 | ⟨s2, herr2, hfs2, hw2⟩
      · rw [hok2]
        cases ch with
        | true =>
          refine ⟨[tmp], ?_, fun _ => ⟨rfl, ?_⟩, by simp, fun q hq => ?_⟩
          · simp [finalStOf, stUnlink, stWrite, stLog]
          · simp [finalStOf, stUnlink, stWrite, stLog]
          · simp [finalStOf, stUnlink, stWrite, stLog, hq]
        | false =>
          refine ⟨[tmp], ?_, fun _ => ⟨rfl, ?_⟩, by simp, fun q hq => ?_⟩
          · simp [finalStOf, stUnlink, stWrite, stLog]
          · simp [finalStOf, stUnlink, stWrite, stLog]
          · simp [finalStOf, stUnlink, stWrite, stLog, hq]
      · rw [herr2]
        refine ⟨[tmp], ?_, fun _ => ⟨rfl, ?_⟩, by simp, fun q hq => ?_⟩
        · simp [finalStOf, stUnlink, stWrite, hfs2, hw2]
        · simp [finalStOf, stUnlink, stWrite, hfs2]
        · simp [finalStOf, stUnlink, stWrite, hfs2, hq]
    · rw [herr]
      refine ⟨[tmp], ?_, fun _ => ⟨rfl, ?_⟩, by simp, fun q hq => ?_⟩
      · simp [finalStOf, stUnlink, stWrite, hfs, hw]
      · simp [finalStOf, stUnlink, stWrite, hfs]
      · simp [finalStOf, stUnlink, stWrite, hfs, hq]

theorem patchAsm_frame (st : St) (srcPath nd tmp : List Char) (mk : List Char × List Char) :
    (patchAsm st srcPath nd mk tmp).2 = tmp ∧
    ∃ c : List Char,
      ((patchAsm st srcPath nd mk tmp).1).fs = (stWrite st tmp c).fs ∧
      ((patchAsm st srcPath nd mk tmp).1).writes = st.writes ++ [tmp] := by
  unfold patchAsm
  simp only []
  cases hf1 : findSub ((st.fs srcPath).getD []) mk.1 with
  | none => exact ⟨rfl, (st.fs srcPath).getD [], rfl, rfl⟩
  | some si =>
    cases hf2 : findSub ((st.fs srcPath).getD []) mk.2 with
    | none => exact ⟨rfl, (st.fs srcPath).getD [], rfl, rfl⟩
    | some ei => exact ⟨rfl, _, rfl, rfl⟩

theorem yesMain_state (env : BuildEnv) (st : St) (data : Option DetectData)
    (nd asmFile outName tmp : List Char) (ch : Bool) :
    ∃ extra : List (List Char),
      (finalStOf (yesMain env st data nd asmFile outName tmp ch)).writes = st.writes ++ extra ∧
      (data.isSome = true →
        extra = [tmp] ∧ (finalStOf (yesMain env st data nd asmFile outName tmp ch)).fs tmp = none) ∧
      (data.isNone = true →
        extra = [] ∧ (finalStOf (yesMain env st data nd asmFile outName tmp ch)).fs = st.fs) ∧
      (∀ q, q ≠ tmp → (finalStOf (yesMain env st data nd asmFile outName tmp ch)).fs q = st.fs q) := by
  cases data with
  | none =>
    unfold yesMain buildLinuxX8664
    simp only [Option.getD_none]
    rcases runCmdYes_frame env st
        [chars "nasm", chars "-f", chars "bin", asmFile, chars "-o", outName]
      with hok | ⟨s, herr, hfs, hw⟩
    · rw [hok]
      cases ch with
      | true =>
        refine ⟨[], by simp [finalStOf], by simp, fun _ => ⟨rfl, rfl⟩, fun q _ => rfl⟩
      | false =>
        refine ⟨[], by simp [finalStOf, stLog], by simp, fun _ => ⟨rfl, rfl⟩, fun q _ => rfl⟩
    · rw [herr]
      refine ⟨[], ?_, by simp, fun _ => ⟨rfl, ?_⟩, fun q _ => ?_⟩
      · simp [finalStOf, hw]
      · funext q
        exact congrFun hfs q
      · exact congrFun hfs q
  | some d =>
    obtain ⟨hsnd, c, hfs1, hw1⟩ := patchAsm_frame st asmFile nd tmp markerNasm
    unfold yesMain buildLinuxX8664
    simp only []
    rw [hsnd]
    simp only [Option.getD_some]
    rcases runCmdYes_frame env (patchAsm st asmFile nd markerNasm tmp).1
        [chars "nasm", chars "-f", chars "bin", tmp, chars "-o", outName]
      with hok | ⟨s, herr, hfs, hw⟩
    · rw [hok]
      cases ch with
      | true =>
        refine ⟨[tmp], ?_, fun _ => ⟨rfl, ?_⟩, by simp, fun q hq => ?_⟩
        · simp [finalStOf, stUnlink, stWrite, hfs1, hw1]
        · simp [finalStOf, stUnlink, stWrite, hfs1]
        · simp [finalStOf, stUnlink, stWrite, hfs1, hq]
      | false =>
        refine ⟨[tmp], ?_, fun _ => ⟨rfl, ?_⟩, by simp, fun q hq => ?_⟩
        · simp [finalStOf, stUnlink, stWrite, stLog, hfs1, hw1]
        · simp [finalStOf, stUnlink, stWrite, stLog, hfs1]
        · simp [finalStOf, stUnlink, stWrite, stLog, hfs1, hq]
    · rw [herr]
      refine ⟨[tmp], ?_, fun _ => ⟨rfl, ?_⟩, by simp, fun q hq => ?_⟩
      · simp [finalStOf, stUnlink, stWrite, hfs, hfs1, hw, hw1]
      · simp [finalStOf, stUnlink, stWrite, hfs, hfs1]
      · simp [finalStOf, stUnlink, stWrite, hfs, hfs1, hq]

/-- Claim C8: in every patch-and-build cycle, including failed and partial
ones, the original source path is never written. Across `buildNasmFlat`,
`buildGas`, the yes builder `yesMain`, and `patchAsm` itself, if the
throwaway path `tmp` differs from the source path `src` and `src` was not
already recorded as written, then in the final state the contents stored at
`src` are unchanged and `src` still does not appear among the written
paths: the patched text only ever goes to `tmp`. -/
theorem c8_source_nonmutation (env : BuildEnv) (st : St)
    (src out tmp tmpd nd outName : List Char) (data : Option DetectData)
    (hs ch : Bool) (mk : List Char × List Char)
    (hne : tmp ≠ src) (hw : src ∉ st.writes) :
    ((finalStOf (buildNasmFlat env st src out data hs tmp ch)).fs src = st.fs src ∧
      src ∉ (finalStOf (buildNasmFlat env st src out data hs tmp ch)).writes) ∧
    ((finalStOf (buildGas env st src out data hs tmp tmpd ch)).fs src = st.fs src ∧
      src ∉ (finalStOf (buildGas env st src out data hs tmp tmpd ch)).writes) ∧
    ((finalStOf (yesMain env st data nd src outName tmp ch)).fs src = st.fs src ∧
      src ∉ (finalStOf (yesMain env st data nd src outName tmp ch)).writes) ∧
    (((patchAsm st src nd mk tmp).1).fs src = st.fs src ∧
      src ∉ ((patchAsm st src nd mk tmp).1).writes) := by
  refine ⟨⟨?_, ?_⟩, ⟨?_, ?_⟩, ⟨?_, ?_⟩, ?_, ?_⟩
  · obtain ⟨extra, hwr, hsome, hnone, hq⟩ := buildNasmFlat_state env st src out data hs tmp ch
    exact hq src (Ne.symm hne)
  · obtain ⟨extra, hwr, hsome, hnone, hq⟩ := buildNasmFlat_state env st src out data hs tmp ch
    cases data with
    | none => rw [hwr, (hnone rfl).1]; simp [hw]
    | some d => rw [hwr, (hsome rfl).1]; simp [hw, Ne.symm hne]
  · obtain ⟨extra, hwr, hsome, hnone, hq⟩ := buildGas_state env st src out data hs tmp tmpd ch
    exact hq src (Ne.symm hne)
  · obtain ⟨extra, hwr, hsome, hnone, hq⟩ := buildGas_state env st src out data hs tmp tmpd ch
    cases data with
    | none => rw [hwr, (hnone rfl).1]; simp [hw]
    | some d => rw [hwr, (hsome rfl).1]; simp [hw, Ne.symm hne]
  · obtain ⟨extra, hwr, hsome, hnone, hq⟩ := yesMain_state env st data nd src outName tmp ch
    exact hq src (Ne.symm hne)
  · obtain ⟨extra, hwr, hsome, hnone, hq⟩ := yesMain_state env st data nd src outName tmp ch
    cases data with
    | none => rw [hwr, (hnone rfl).1]; simp [hw]
    | some d => rw [hwr, (hsome rfl).1]; simp [hw, Ne.symm hne]
  · obtain ⟨hsnd, c, hfs, hwr⟩ := patchAsm_frame st src nd tmp mk
    rw [hfs]
    simp [stWrite, Ne.symm hne]
  · obtain ⟨hsnd, c, hfs, hwr⟩ := patchAsm_frame st src nd tmp mk
    rw [hwr]
    simp [hw, Ne.symm hne]

theorem c8_source_nonmutation_witness :
    (chars "p.s" ≠ chars "src.s" ∧ chars "src.s" ∉ stInit.writes) ∧
    (((finalStOf (buildNasmFlat envAsFails stInit (chars "src.s") (chars "out") none true
          (chars "p.s") false)).fs (chars "src.s") = stInit.fs (chars "src.s") ∧
        chars "src.s" ∉ (finalStOf (buildNasmFlat envAsFails stInit (chars "src.s") (chars "out")
          none true (chars "p.s") false)).writes) ∧
      ((finalStOf (buildGas envAsFails stInit (chars "src.s") (chars "out") none true
          (chars "p.s") (chars "d") false)).fs (chars "src.s") = stInit.fs (chars "src.s") ∧
        chars "src.s" ∉ (finalStOf (buildGas envAsFails stInit (chars "src.s") (chars "out")
          none true (chars "p.s") (chars "d") false)).writes) ∧
      ((finalStOf (yesMain envAsFails stInit none (chars "x") (chars "src.s") (chars "yes")
          (chars "p.s") false)).fs (chars "src.s") = stInit.fs (chars "src.s") ∧
        chars "src.s" ∉ (finalStOf (yesMain envAsFails stInit none (chars "x") (chars "src.s")
          (chars "yes") (chars "p.s") false)).writes) ∧
      (((patchAsm stInit (chars "src.s") (chars "x") (chars "a", chars "b")
          (chars "p.s")).1).fs (chars "src.s") = stInit.fs (chars "src.s") ∧
        chars "src.s" ∉ ((patchAsm stInit (chars "src.s") (chars "x") (chars "a", chars "b")
          (chars "p.s")).1).writes)) :=
  ⟨⟨by decide, by decide⟩,
    c8_source_nonmutation envAsFails stInit (chars "src.s") (chars "out") (chars "p.s")
      (chars "d") (chars "x") (chars "yes") none true false (chars "a", chars "b")
      (by decide) (by decide)⟩

/-- Claim C9: every build strategy deletes its temporary patched-source file
on every exit path. For `buildNasmFlat` and `buildGas` of the tool builder
and for the yes builder `yesMain`, whenever detection data is present (so a
patched temporary at `tmp` is created at all), the final state on any
outcome — successful build, failing external command, or a chmod/verify
exception — maps `tmp` to nothing: the temporary has been unlinked. -/
theorem c9_temp_cleanup (env env2 env3 : BuildEnv) (st st2 st3 : St)
    (src out src2 out2 nd asmFile outName : List Char) (d d2 d3 : DetectData)
    (hs hs2 : Bool) (tmp tmp2 tmpd tmp3 : List Char) (ch ch2 ch3 : Bool) :
    (finalStOf (buildNasmFlat env st src out (some d) hs tmp ch)).fs tmp = none ∧
    (finalStOf (buildGas env2 st2 src2 out2 (some d2) hs2 tmp2 tmpd ch2)).fs tmp2 = none ∧
    (finalStOf (yesMain env3 st3 (some d3) nd asmFile outName tmp3 ch3)).fs tmp3 = none := by
  refine ⟨?_, ?_, ?_⟩
  · obtain ⟨extra, hwr, hsome, hnone, hq⟩ := buildNasmFlat_state env st src out (some d) hs tmp ch
    exact (hsome rfl).2
  · obtain ⟨extra, hwr, hsome, hnone, hq⟩ :=
      buildGas_state env2 st2 src2 out2 (some d2) hs2 tmp2 tmpd ch2
    exact (hsome rfl).2
  · obtain ⟨extra, hwr, hsome, hnone, hq⟩ :=
      yesMain_state env3 st3 (some d3) nd asmFile outName tmp3 ch3
    exact (hsome rfl).2
